import Mathlib

/-!
Verification of the chess rules engine in src/chess.py.

The engine state (class ChessGame) is modelled as a record GState; the
board is the 8x8 list-of-lists of optional pieces from the source, and
each Piece carries its stored row/col and has_moved flag exactly as the
Python objects do.  Python's in-place mutation is rendered as explicit
state passing; code paths that would raise an exception in Python
(attribute access on None, list index out of range) are rendered as
Except Unit, with .error marking the raise.
-/

namespace Chess

inductive Color where
  | white
  | black
deriving DecidableEq, Repr

def Color.other : Color → Color
  | .white => .black
  | .black => .white

inductive PieceType where
  | pawn
  | rook
  | knight
  | bishop
  | queen
  | king
deriving DecidableEq, Repr

/-- Piece.__init__: color, piece_type, row, col, has_moved = False. -/
structure Piece where
  color : Color
  piece_type : PieceType
  row : Int
  col : Int
  has_moved : Bool
deriving DecidableEq, Repr

/-- The board field: an 8x8 list of lists holding at most one piece per square. -/
abbrev Board := List (List (Option Piece))

/-- 0 <= r < 8 and 0 <= c < 8, the bound check used throughout the source. -/
def inBP (r c : Int) : Prop := 0 ≤ r ∧ r < 8 ∧ 0 ≤ c ∧ c < 8

instance (r c : Int) : Decidable (inBP r c) := by
  unfold inBP; infer_instance

/-- Read board[r][c].  Out-of-range access yields none; every in-range read
mirrors the source, whose call sites bounds-check coordinates before
indexing (the remote-move path, which does not, is modelled separately
with pyIdx below). -/
def bget (b : Board) (r c : Int) : Option Piece :=
  if inBP r c then ((b[r.toNat]?.getD [])[c.toNat]?).getD none else none

/-- Write board[r][c] = v (no-op out of range, see bget). -/
def bset (b : Board) (r c : Int) (v : Option Piece) : Board :=
  if inBP r c then b.set r.toNat ((b[r.toNat]?.getD []).set c.toNat v) else b

/-- All 64 squares in the row-major order every scan loop in the source uses. -/
def allSquares : List (Int × Int) :=
  (List.range 8).flatMap fun r => (List.range 8).map fun (c : Nat) => ((r : Int), (c : Int))

/-- Python list indexing on a length-8 list: negative indices in [-8,-1]
wrap, anything else raises IndexError. -/
def pyIdx (i : Int) : Except Unit Int :=
  if 0 ≤ i ∧ i < 8 then .ok i
  else if -8 ≤ i ∧ i < 0 then .ok (i + 8)
  else .error ()

/-- Movement direction lists, in source iteration order. -/
def rookDirs : List (Int × Int) := [(0,1),(1,0),(0,-1),(-1,0)]

def bishopDirs : List (Int × Int) := [(1,1),(1,-1),(-1,1),(-1,-1)]

def queenDirs : List (Int × Int) := [(0,1),(1,0),(0,-1),(-1,0),(1,1),(1,-1),(-1,1),(-1,-1)]

def knightDirs : List (Int × Int) := [(2,1),(1,2),(-1,2),(-2,1),(-2,-1),(-1,-2),(1,-2),(2,-1)]

def kingDirs : List (Int × Int) := [(-1,-1),(-1,0),(-1,1),(0,-1),(0,1),(1,-1),(1,0),(1,1)]

/-- One sliding ray of get_all_attacking_moves: every visited square is
appended, and the ray stops after the first occupied square (fuel 7, as
in range(1,8)). -/
def attackRay (b : Board) : Int → Int → Int → Int → Nat → List (Int × Int)
  | _, _, _, _, 0 => []
  | row, col, dr, dc, n+1 =>
    let r := row + dr
    let c := col + dc
    if inBP r c then
      if bget b r c = none then (r, c) :: attackRay b r c dr dc n
      else [(r, c)]
    else []

/-- One sliding ray of get_valid_moves: empty squares are appended and the
ray continues; the first occupied square is appended only when it holds
an enemy piece, and the ray stops there. -/
def moveRay (b : Board) (pcolor : Color) : Int → Int → Int → Int → Nat → List (Int × Int)
  | _, _, _, _, 0 => []
  | row, col, dr, dc, n+1 =>
    let r := row + dr
    let c := col + dc
    if inBP r c then
      match bget b r c with
      | none => (r, c) :: moveRay b pcolor r c dr dc n
      | some t => if t.color ≠ pcolor then [(r, c)] else []
    else []

/-- Pawn attack squares (diagonals only), from get_all_attacking_moves. -/
def pawnAttacks (p : Piece) : List (Int × Int) :=
  let d : Int := if p.color = Color.white then -1 else 1
  ([-1, 1] : List Int).filterMap fun dc =>
    if inBP (p.row + d) (p.col + dc) then some (p.row + d, p.col + dc) else none

/-- Knight/king attack squares: fixed offsets, bounds-checked, occupancy ignored. -/
def stepAttacks (p : Piece) (dirs : List (Int × Int)) : List (Int × Int) :=
  dirs.filterMap fun d =>
    if inBP (p.row + d.1) (p.col + d.2) then some (p.row + d.1, p.col + d.2) else none

/-- ChessGame.get_all_attacking_moves. -/
def get_all_attacking_moves (b : Board) (p : Piece) : List (Int × Int) :=
  match p.piece_type with
  | .pawn => pawnAttacks p
  | .rook => rookDirs.flatMap fun d => attackRay b p.row p.col d.1 d.2 7
  | .knight => stepAttacks p knightDirs
  | .bishop => bishopDirs.flatMap fun d => attackRay b p.row p.col d.1 d.2 7
  | .queen => queenDirs.flatMap fun d => attackRay b p.row p.col d.1 d.2 7
  | .king => stepAttacks p kingDirs

/-- ChessGame.find_king: first king of the color in row-major scan order. -/
def find_king (b : Board) (color : Color) : Option (Int × Int) :=
  allSquares.find? fun sq =>
    match bget b sq.1 sq.2 with
    | some p => decide (p.color = color ∧ p.piece_type = PieceType.king)
    | none => false

/-- ChessGame.is_in_check: some opposing piece attacks the king square
(false when no king is found). -/
def is_in_check (b : Board) (color : Color) : Bool :=
  match find_king b color with
  | none => false
  | some k =>
    allSquares.any fun sq =>
      match bget b sq.1 sq.2 with
      | some p =>
        if p.color = color.other then decide (k ∈ get_all_attacking_moves b p) else false
      | none => false

/-- ChessGame.is_square_attacked. -/
def is_square_attacked (b : Board) (row col : Int) (color : Color) : Bool :=
  allSquares.any fun sq =>
    match bget b sq.1 sq.2 with
    | some p =>
      if p.color = color.other then decide ((row, col) ∈ get_all_attacking_moves b p) else false
    | none => false

/-- ChessGame.would_be_in_check, with the temporary mutation and the undo
made explicit: returns (answer, board after undo, piece after undo). -/
def would_be_in_check_impl (b : Board) (p : Piece) (to_row to_col : Int) :
    Bool × Board × Piece :=
  let from_row := p.row
  let from_col := p.col
  let captured := bget b to_row to_col
  let moved := { p with row := to_row, col := to_col }
  let bSim := bset (bset b from_row from_col none) to_row to_col (some moved)
  let inCheck := is_in_check bSim p.color
  let restored := { moved with row := from_row, col := from_col }
  let bBack := bset (bset bSim from_row from_col (some restored)) to_row to_col captured
  (inCheck, bBack, restored)

def would_be_in_check (b : Board) (p : Piece) (to_row to_col : Int) : Bool :=
  (would_be_in_check_impl b p to_row to_col).1

/-- Pawn pseudo-legal moves from get_valid_moves, for direction d: forward
push (and double push from an unmoved pawn through two empty squares),
then the two diagonals, capturing an enemy or matching the en-passant
target. -/
def pawnMovesD (b : Board) (ep : Option (Int × Int)) (p : Piece) (d : Int) :
    List (Int × Int) :=
  let row := p.row
  let col := p.col
  let forward :=
    if 0 ≤ row + d ∧ row + d < 8 ∧ bget b (row + d) col = none then
      (row + d, col) ::
        (if ¬p.has_moved ∧ 0 ≤ row + 2*d ∧ row + 2*d < 8 ∧ bget b (row + 2*d) col = none then
          [(row + 2*d, col)]
        else [])
    else []
  let diag := fun (dc : Int) =>
    if 0 ≤ row + d ∧ row + d < 8 ∧ 0 ≤ col + dc ∧ col + dc < 8 then
      match bget b (row + d) (col + dc) with
      | some t =>
        if t.color ≠ p.color then [(row + d, col + dc)]
        else if ep = some (row + d, col + dc) then [(row + d, col + dc)] else []
      | none => if ep = some (row + d, col + dc) then [(row + d, col + dc)] else []
    else []
  forward ++ diag (-1) ++ diag 1

/-- The pawn branch of get_valid_moves: direction -1 for white, 1 for black. -/
def pawnMoves (b : Board) (ep : Option (Int × Int)) (p : Piece) : List (Int × Int) :=
  pawnMovesD b ep p (if p.color = Color.white then -1 else 1)

/-- Knight and plain king pseudo-legal moves: fixed offsets onto empty or
enemy squares. -/
def stepMoves (b : Board) (p : Piece) (dirs : List (Int × Int)) : List (Int × Int) :=
  dirs.filterMap fun dd =>
    let r := p.row + dd.1
    let c := p.col + dd.2
    if inBP r c then
      match bget b r c with
      | none => some (r, c)
      | some t => if t.color ≠ p.color then some (r, c) else none
    else none

/-- The castling destinations appended in get_valid_moves for a king. -/
def castleMoves (b : Board) (p : Piece) : List (Int × Int) :=
  let row := p.row
  if ¬p.has_moved ∧ is_in_check b p.color = false then
    (match bget b row 7 with
     | some r7 =>
       if r7.piece_type = PieceType.rook ∧ r7.has_moved = false ∧
           bget b row 5 = none ∧ bget b row 6 = none then
         if is_square_attacked b row 5 p.color = false ∧
             is_square_attacked b row 6 p.color = false then
           [(row, 6)]
         else []
       else []
     | none => []) ++
    (match bget b row 0 with
     | some r0 =>
       if r0.piece_type = PieceType.rook ∧ r0.has_moved = false ∧
           bget b row 1 = none ∧ bget b row 2 = none ∧ bget b row 3 = none then
         if is_square_attacked b row 3 p.color = false ∧
             is_square_attacked b row 2 p.color = false then
           [(row, 2)]
         else []
       else []
     | none => [])
  else []

/-- The pseudo-legal move list built by get_valid_moves before the
self-check filter. -/
def pseudoMoves (b : Board) (ep : Option (Int × Int)) (p : Piece) : List (Int × Int) :=
  match p.piece_type with
  | .pawn => pawnMoves b ep p
  | .rook => rookDirs.flatMap fun dd => moveRay b p.color p.row p.col dd.1 dd.2 7
  | .knight => stepMoves b p knightDirs
  | .bishop => bishopDirs.flatMap fun dd => moveRay b p.color p.row p.col dd.1 dd.2 7
  | .queen => queenDirs.flatMap fun dd => moveRay b p.color p.row p.col dd.1 dd.2 7
  | .king => stepMoves b p kingDirs ++ castleMoves b p

/-- ChessGame.get_valid_moves: pseudo-legal moves filtered by
would_be_in_check. -/
def get_valid_moves (b : Board) (ep : Option (Int × Int)) (p : Piece) : List (Int × Int) :=
  (pseudoMoves b ep p).filter fun m => would_be_in_check b p m.1 m.2 = false

/-- ChessGame.is_checkmate: in check and no piece of the color has a valid move. -/
def is_checkmate (b : Board) (ep : Option (Int × Int)) (color : Color) : Bool :=
  if is_in_check b color then
    allSquares.all fun sq =>
      match bget b sq.1 sq.2 with
      | some p => if p.color = color then (get_valid_moves b ep p).isEmpty else true
      | none => true
  else false

/-- ChessGame.is_stalemate: not in check and no piece of the color has a
valid move. -/
def is_stalemate (b : Board) (ep : Option (Int × Int)) (color : Color) : Bool :=
  if is_in_check b color then false
  else
    allSquares.all fun sq =>
      match bget b sq.1 sq.2 with
      | some p => if p.color = color then (get_valid_moves b ep p).isEmpty else true
      | none => true

/-- One entry of move_history. -/
structure MoveRecord where
  fromSq : Int × Int
  toSq : Int × Int
  piece : Piece
  captured : Option Piece
  en_passant : Bool
  castling : Bool
deriving DecidableEq, Repr

/-- The engine-relevant fields of ChessGame (rendering and socket fields
are out of scope per the spec). -/
structure GState where
  board : Board
  current_player : Color
  selected_piece : Option Piece
  valid_moves : List (Int × Int)
  game_over : Bool
  winner : Option Color
  check : Bool
  checkmate : Bool
  stalemate : Bool
  move_history : List MoveRecord
  en_passant_target : Option (Int × Int)
  move_count : Nat
deriving DecidableEq, Repr

/-- Python attribute access on an optional piece: None raises (Except.error,
modelling AttributeError), a piece is passed through. -/
def reqSome {α : Type _} : Option α → Except Unit α
  | some a => .ok a
  | none => .error ()

/-- The wire payload applied by apply_remote_move. -/
structure Payload where
  fromSq : Int × Int
  toSq : Int × Int
  castling : Bool
  en_passant : Bool
deriving DecidableEq, Repr

/-- ChessGame.select_piece. -/
def select_piece (g : GState) (row col : Int) : Bool × GState :=
  match bget g.board row col with
  | some p =>
    if p.color = g.current_player then
      (true, { g with selected_piece := some p,
                      valid_moves := get_valid_moves g.board g.en_passant_target p })
    else (false, g)
  | none => (false, g)

/-- ChessGame.promote_pawn: always a queen. -/
def promote_pawn (p : Piece) : Piece := { p with piece_type := PieceType.queen }

/-- The check/checkmate/stalemate/game_over/winner recomputation shared
verbatim by move_piece (lines 407-418) and apply_remote_move (lines
842-853); flags that the branch does not assign keep their old value. -/
def terminalUpdate (g : GState) (b : Board) (ept : Option (Int × Int)) (cur : Color) :
    Bool × Bool × Bool × Bool × Option Color :=
  let ck := is_in_check b cur
  if ck then
    if is_checkmate b ept cur then
      (ck, true, g.stalemate, true, some cur.other)
    else if is_stalemate b ept cur then
      (ck, g.checkmate, true, true, g.winner)
    else (ck, g.checkmate, g.stalemate, g.game_over, g.winner)
  else
    if is_stalemate b ept cur then
      (ck, g.checkmate, true, true, g.winner)
    else (ck, g.checkmate, g.stalemate, g.game_over, g.winner)

/-- ChessGame.move_piece.  .error marks the code path where the source
would raise (castling with no piece on the rook corner: rook.col on
None); every state reachable through select_piece keeps it unreachable. -/
def move_piece (g : GState) (to_row to_col : Int) : Except Unit (Bool × GState) :=
  match g.selected_piece with
  | none => .ok (false, g)
  | some sp =>
    if (to_row, to_col) ∈ g.valid_moves then
      let from_row := sp.row
      let from_col := sp.col
      -- en passant capture: remove the pawn on the mover's origin row at the target file
      let epc : Bool × Board × Option Piece :=
        if sp.piece_type = PieceType.pawn ∧ g.en_passant_target = some (to_row, to_col) then
          (true, bset g.board from_row to_col none, bget g.board from_row to_col)
        else
          (false, g.board, bget g.board to_row to_col)
      -- castling: relocate the rook
      let cstl : Except Unit (Bool × Board) :=
        if sp.piece_type = PieceType.king ∧ (to_col - from_col).natAbs = 2 then
          let rfc : Int := if to_col > from_col then 7 else 0
          let rtc : Int := if to_col > from_col then to_col - 1 else to_col + 1
          (reqSome (bget epc.2.1 from_row rfc)).map fun rook =>
            (true, bset (bset epc.2.1 from_row rfc none) from_row rtc
              (some { rook with col := rtc, has_moved := true }))
        else .ok (false, epc.2.1)
      cstl.map fun cb =>
        let castling := cb.1
        let b2 := cb.2
        let moved := { sp with row := to_row, col := to_col, has_moved := true }
        let b3 := bset (bset b2 from_row from_col none) to_row to_col (some moved)
        let ept : Option (Int × Int) :=
          if sp.piece_type = PieceType.pawn ∧ (to_row - from_row).natAbs = 2 then
            some ((from_row + to_row).fdiv 2, to_col)
          else none
        let promoted : Prop :=
          sp.piece_type = PieceType.pawn ∧
            ((sp.color = Color.white ∧ to_row = 0) ∨ (sp.color = Color.black ∧ to_row = 7))
        let finalPiece := if promoted then promote_pawn moved else moved
        let b4 := if promoted then bset b3 to_row to_col (some finalPiece) else b3
        let cur := g.current_player.other
        let t := terminalUpdate g b4 ept cur
        (true,
          { g with
              board := b4
              current_player := cur
              en_passant_target := ept
              check := t.1
              checkmate := t.2.1
              stalemate := t.2.2.1
              game_over := t.2.2.2.1
              winner := t.2.2.2.2
              move_count := g.move_count + 1
              move_history := g.move_history ++
                [⟨(from_row, from_col), (to_row, to_col), finalPiece, epc.2.2, epc.1, castling⟩]
              selected_piece := none
              valid_moves := [] })
    else .ok (false, g)

/-- The four Python list-index computations of apply_remote_move: any
out-of-range coordinate raises IndexError. -/
def pyIdx4 (md : Payload) : Except Unit (Int × Int × Int × Int) :=
  match pyIdx md.fromSq.1, pyIdx md.fromSq.2, pyIdx md.toSq.1, pyIdx md.toSq.2 with
  | .ok fr, .ok fc, .ok tr, .ok tc => .ok (fr, fc, tr, tc)
  | _, _, _, _ => .error ()

/-- ChessGame.apply_remote_move.  .error marks a Python raise: IndexError
from out-of-range payload coordinates, or AttributeError from assigning
piece.row on a None origin (or rook corner). -/
def apply_remote_move (g : GState) (md : Payload) : Except Unit GState :=
  (pyIdx4 md).bind fun q =>
    let fr := q.1
    let fc := q.2.1
    let tr := q.2.2.1
    let tc := q.2.2.2
    (reqSome (bget g.board fr fc)).bind fun p =>
      let p1 := { p with row := md.toSq.1, col := md.toSq.2, has_moved := true }
      let b1 := bset (bset g.board fr fc none) tr tc (some p1)
      let cs : Except Unit Board :=
        if md.castling then
          if md.toSq.2 > md.fromSq.2 then
            (reqSome (bget b1 fr 7)).map fun rook =>
              bset (bset b1 fr 7 none) fr 5 (some { rook with col := 5, has_moved := true })
          else
            (reqSome (bget b1 fr 0)).map fun rook =>
              bset (bset b1 fr 0 none) fr 3 (some { rook with col := 3, has_moved := true })
        else .ok b1
      cs.map fun b2 =>
        let b3 := if md.en_passant then bset b2 fr tc none else b2
        let cur := g.current_player.other
        let t := terminalUpdate g b3 g.en_passant_target cur
        { g with
            board := b3
            current_player := cur
            check := t.1
            checkmate := t.2.1
            stalemate := t.2.2.1
            game_over := t.2.2.2.1
            winner := t.2.2.2.2
            move_count := g.move_count + 1 }

/-- ChessGame.initialize_board (the 8x8 starting position). -/
def backRank (c : Color) (r : Int) : List (Option Piece) :=
  [some ⟨c, .rook, r, 0, false⟩, some ⟨c, .knight, r, 1, false⟩,
   some ⟨c, .bishop, r, 2, false⟩, some ⟨c, .queen, r, 3, false⟩,
   some ⟨c, .king, r, 4, false⟩, some ⟨c, .bishop, r, 5, false⟩,
   some ⟨c, .knight, r, 6, false⟩, some ⟨c, .rook, r, 7, false⟩]

def pawnRank (c : Color) (r : Int) : List (Option Piece) :=
  (List.range 8).map fun k => some ⟨c, .pawn, r, (k : Int), false⟩

def emptyRank : List (Option Piece) := List.replicate 8 none

def initBoard : Board :=
  [backRank .black 0, pawnRank .black 1, emptyRank, emptyRank,
   emptyRank, emptyRank, pawnRank .white 6, backRank .white 7]

/-- ChessGame.__init__ (engine fields). -/
def initGState : GState :=
  { board := initBoard
    current_player := .white
    selected_piece := none
    valid_moves := []
    game_over := false
    winner := none
    check := false
    checkmate := false
    stalemate := false
    move_history := []
    en_passant_target := none
    move_count := 0 }

/-- Success/state projections used to state claims without naming the
whole resulting record. -/
def mpOk : Except Unit (Bool × GState) → Bool
  | .ok (true, _) => true
  | _ => false

def mpState : Except Unit (Bool × GState) → Option GState
  | .ok (true, g) => some g
  | _ => none

/-- Select a piece and attempt a move, as the UI click handler does. -/
def runMove (g : GState) (fr fc tr tc : Int) : Option GState :=
  let s := select_piece g fr fc
  if s.1 then mpState (move_piece s.2 tr tc) else none

def runMoves (g : GState) : List ((Int × Int) × (Int × Int)) → Option GState
  | [] => some g
  | m :: ms =>
    match runMove g m.1.1 m.1.2 m.2.1 m.2.2 with
    | some g1 => runMoves g1 ms
    | none => none

/-- Total number of legal moves available to a color (sum over its pieces
of the length of get_valid_moves). -/
def moveCountFor (g : GState) (c : Color) : Nat :=
  (allSquares.map fun sq =>
    match bget g.board sq.1 sq.2 with
    | some p => if p.color = c then (get_valid_moves g.board g.en_passant_target p).length else 0
    | none => 0).sum

/-- Same, restricted to one piece kind. -/
def moveCountForKind (g : GState) (c : Color) (k : PieceType) : Nat :=
  (allSquares.map fun sq =>
    match bget g.board sq.1 sq.2 with
    | some p =>
      if p.color = c ∧ p.piece_type = k then
        (get_valid_moves g.board g.en_passant_target p).length
      else 0
    | none => 0).sum

/-- True when no square holding a piece of the given color can be selected. -/
def noneSelectable (g : GState) (c : Color) : Bool :=
  allSquares.all fun sq =>
    match bget g.board sq.1 sq.2 with
    | some p => if p.color = c then !(select_piece g sq.1 sq.2).1 else true
    | none => true

/-! ### List update lemmas -/

theorem lset_oob {α : Type _} (l : List α) (i : Nat) (a : α) (h : l.length ≤ i) :
    l.set i a = l := by
  induction l generalizing i with
  | nil => rfl
  | cons x xs ih =>
    cases i with
    | zero => simp at h
    | succ n => simpa using ih n (by simpa using h)

theorem lget_none_oob {α : Type _} (l : List α) (i : Nat) (h : l[i]? = none) :
    l.length ≤ i := by
  induction l generalizing i with
  | nil => simp
  | cons x xs ih =>
    cases i with
    | zero => simp at h
    | succ n => simpa using ih n (by simpa using h)

theorem lget_oob_none {α : Type _} (l : List α) (i : Nat) (h : l.length ≤ i) :
    l[i]? = none := by
  induction l generalizing i with
  | nil => rfl
  | cons x xs ih =>
    cases i with
    | zero => simp at h
    | succ n => simpa using ih n (by simpa using h)

theorem lget_set_self {α : Type _} (l : List α) (i : Nat) (a : α) (h : i < l.length) :
    (l.set i a)[i]? = some a := by
  induction l generalizing i with
  | nil => simp at h
  | cons x xs ih =>
    cases i with
    | zero => simp
    | succ n => simpa using ih n (by simpa using h)

theorem lget_set_ne {α : Type _} (l : List α) (i j : Nat) (a : α) (h : i ≠ j) :
    (l.set i a)[j]? = l[j]? := by
  induction l generalizing i j with
  | nil => rfl
  | cons x xs ih =>
    cases i with
    | zero =>
      cases j with
      | zero => exact absurd rfl h
      | succ m => simp
    | succ n =>
      cases j with
      | zero => simp
      | succ m => simpa using ih n m (by omega)

theorem lset_of_get {α : Type _} (l : List α) (i : Nat) (a : α) (h : l[i]? = some a) :
    l.set i a = l := by
  induction l generalizing i with
  | nil => rfl
  | cons x xs ih =>
    cases i with
    | zero => simp_all
    | succ n => simpa using ih n (by simpa using h)

theorem lset_lset {α : Type _} (l : List α) (i : Nat) (a b : α) :
    (l.set i a).set i b = l.set i b := by
  induction l generalizing i with
  | nil => rfl
  | cons x xs ih =>
    cases i with
    | zero => rfl
    | succ n => simp [ih n]

theorem lset_comm {α : Type _} (l : List α) (i j : Nat) (a b : α) (h : i ≠ j) :
    (l.set i a).set j b = (l.set j b).set i a := by
  induction l generalizing i j with
  | nil => rfl
  | cons x xs ih =>
    cases i with
    | zero =>
      cases j with
      | zero => exact absurd rfl h
      | succ m => rfl
    | succ n =>
      cases j with
      | zero => rfl
      | succ m => simpa using ih n m (by omega)

theorem lmem_set {α : Type _} (l : List α) (i : Nat) (a x : α) (h : x ∈ l.set i a) :
    x = a ∨ x ∈ l := by
  induction l generalizing i with
  | nil => simp at h
  | cons y ys ih =>
    cases i with
    | zero =>
      rcases List.mem_cons.1 h with h1 | h1
      · exact Or.inl h1
      · exact Or.inr (List.mem_cons_of_mem _ h1)
    | succ n =>
      rcases List.mem_cons.1 h with h1 | h1
      · exact Or.inr (h1 ▸ List.mem_cons_self _ _)
      · rcases ih n h1 with h2 | h2
        · exact Or.inl h2
        · exact Or.inr (List.mem_cons_of_mem _ h2)

/-! ### Board access lemmas -/

theorem bget_some_inBP {b : Board} {r c : Int} {p : Piece}
    (h : bget b r c = some p) : inBP r c := by
  by_cases hb : inBP r c
  · exact hb
  · simp [bget, hb] at h

theorem bset_not_inBP {b : Board} {r c : Int} (v : Option Piece) (h : ¬ inBP r c) :
    bset b r c v = b := by
  simp [bset, h]

theorem bget_not_inBP {b : Board} {r c : Int} (h : ¬ inBP r c) :
    bget b r c = none := by
  simp [bget, h]

theorem bset_bget_self (b : Board) (r c : Int) : bset b r c (bget b r c) = b := by
  by_cases h : inBP r c
  · simp only [bget, bset, if_pos h]
    cases hrow : b[r.toNat]? with
    | none =>
      simp only [hrow, Option.getD_none]
      have : (([] : List (Option Piece)).set c.toNat none) = [] := rfl
      simp only [List.getElem?_nil, Option.getD_none, this]
      exact lset_oob _ _ _ (lget_none_oob _ _ hrow)
    | some row =>
      simp only [hrow, Option.getD_some]
      cases hcell : row[c.toNat]? with
      | none =>
        simp only [hcell, Option.getD_none]
        rw [lset_oob _ _ _ (lget_none_oob _ _ hcell)]
        exact lset_of_get _ _ _ hrow
      | some x =>
        simp only [hcell, Option.getD_some]
        rw [lset_of_get _ _ _ hcell]
        exact lset_of_get _ _ _ hrow
  · simp [bset, h]

theorem bset_bset_same (b : Board) (r c : Int) (v w : Option Piece) :
    bset (bset b r c v) r c w = bset b r c w := by
  by_cases h : inBP r c
  · simp only [bset, if_pos h]
    by_cases hl : r.toNat < b.length
    · have hrow : (b.set r.toNat ((b[r.toNat]?.getD []).set c.toNat v))[r.toNat]? =
          some ((b[r.toNat]?.getD []).set c.toNat v) :=
        lget_set_self _ _ _ (by simpa using hl)
      rw [hrow]
      simp only [Option.getD_some]
      rw [lset_lset, lset_lset]
    · have hb : b[r.toNat]? = none := lget_oob_none _ _ (by omega)
      have hbs : ∀ u : Option Piece,
          List.set b r.toNat ((b[r.toNat]?.getD []).set c.toNat u) = b := by
        intro u
        rw [hb]
        exact lset_oob _ _ _ (by omega)
      rw [hbs v, hbs w]
  · simp [bset, h]

theorem lget_mem {α : Type _} (l : List α) (i : Nat) (a : α) (h : l[i]? = some a) :
    a ∈ l := by
  induction l generalizing i with
  | nil => simp at h
  | cons x xs ih =>
    cases i with
    | zero => simp_all
    | succ n => exact List.mem_cons_of_mem _ (ih n (by simpa using h))

theorem bset_comm (b : Board) (r c r' c' : Int) (v w : Option Piece)
    (h : ¬(r = r' ∧ c = c')) :
    bset (bset b r c v) r' c' w = bset (bset b r' c' w) r c v := by
  by_cases h1 : inBP r c
  · by_cases h2 : inBP r' c'
    · simp only [bset, if_pos h1, if_pos h2]
      by_cases hr : r = r'
      · subst hr
        have hc : c.toNat ≠ c'.toNat := by
          obtain ⟨a1, a2, a3, a4⟩ := h1
          obtain ⟨b1, b2, b3, b4⟩ := h2
          have : c ≠ c' := fun hcc => h ⟨rfl, hcc⟩
          omega
        by_cases hl : r.toNat < b.length
        · rw [lget_set_self _ _ _ (by simpa using hl),
            lget_set_self _ _ _ (by simpa using hl)]
          simp only [Option.getD_some]
          rw [lset_lset, lset_lset, lset_comm _ _ _ _ _ hc]
        · have hb : b[r.toNat]? = none := lget_oob_none _ _ (by omega)
          have hbs : ∀ (j : Nat) (u : Option Piece),
              List.set b r.toNat ((b[r.toNat]?.getD []).set j u) = b := by
            intro j u
            rw [hb]
            exact lset_oob _ _ _ (by omega)
          rw [hbs _ v, hbs _ w, hbs _ v]
      · have hi : r.toNat ≠ r'.toNat := by
          obtain ⟨a1, a2, a3, a4⟩ := h1
          obtain ⟨b1, b2, b3, b4⟩ := h2
          omega
        rw [lget_set_ne _ _ _ _ hi, lget_set_ne _ _ _ _ (Ne.symm hi),
          lset_comm _ _ _ _ _ hi]
    · rw [bset_not_inBP w h2, bset_not_inBP w h2]
  · rw [bset_not_inBP v h1, bset_not_inBP v h1]

theorem bget_bset_ne (b : Board) (r c r' c' : Int) (v : Option Piece)
    (h : ¬(r = r' ∧ c = c')) :
    bget (bset b r c v) r' c' = bget b r' c' := by
  by_cases h1 : inBP r c
  · by_cases h2 : inBP r' c'
    · simp only [bget, bset, if_pos h1, if_pos h2]
      by_cases hr : r = r'
      · subst hr
        have hc : c.toNat ≠ c'.toNat := by
          obtain ⟨a1, a2, a3, a4⟩ := h1
          obtain ⟨b1, b2, b3, b4⟩ := h2
          have : c ≠ c' := fun hcc => h ⟨rfl, hcc⟩
          omega
        by_cases hl : r.toNat < b.length
        · rw [lget_set_self _ _ _ (by simpa using hl)]
          simp only [Option.getD_some]
          rw [lget_set_ne _ _ _ _ hc]
        · rw [lset_oob _ _ _ (by omega)]
      · have hi : r.toNat ≠ r'.toNat := by
          obtain ⟨a1, a2, a3, a4⟩ := h1
          obtain ⟨b1, b2, b3, b4⟩ := h2
          omega
        rw [lget_set_ne _ _ _ _ hi]
    · rw [bget_not_inBP h2, bget_not_inBP h2]
  · rw [bset_not_inBP v h1]

/-- An 8x8 board, as initialize_board constructs and every transition keeps. -/
def Shaped (b : Board) : Prop := b.length = 8 ∧ ∀ row ∈ b, row.length = 8

theorem shaped_initBoard : Shaped initBoard := by
  constructor
  · rfl
  · decide

theorem shaped_bset (b : Board) (r c : Int) (v : Option Piece) (hs : Shaped b) :
    Shaped (bset b r c v) := by
  obtain ⟨hlen, hrows⟩ := hs
  by_cases h : inBP r c
  · simp only [bset, if_pos h]
    refine ⟨by simpa using hlen, ?_⟩
    intro row hrow
    rcases lmem_set _ _ _ _ hrow with h1 | h1
    · subst h1
      rw [List.length_set]
      cases hx : b[r.toNat]? with
      | none => exact absurd (lget_none_oob _ _ hx) (by obtain ⟨a1, a2, a3, a4⟩ := h; omega)
      | some row0 => simpa [hx] using hrows row0 (lget_mem _ _ _ hx)
    · exact hrows row h1
  · simpa [bset, h] using ⟨hlen, hrows⟩

theorem bget_bset_self (b : Board) (r c : Int) (v : Option Piece)
    (hs : Shaped b) (h : inBP r c) :
    bget (bset b r c v) r c = v := by
  obtain ⟨hlen, hrows⟩ := hs
  obtain ⟨a1, a2, a3, a4⟩ := h
  have hi : r.toNat < b.length := by omega
  cases hx : b[r.toNat]? with
  | none => exact absurd (lget_none_oob _ _ hx) (by omega)
  | some row =>
    have hrl : row.length = 8 := hrows row (lget_mem _ _ _ hx)
    have h' : inBP r c := ⟨a1, a2, a3, a4⟩
    simp only [bget, bset, if_pos h']
    rw [lget_set_self _ _ _ (by simpa using hi)]
    simp only [hx, Option.getD_some]
    rw [lget_set_self _ _ _ (by omega)]
    rfl

theorem mem_allSquares {r c : Int} : (r, c) ∈ allSquares ↔ inBP r c := by
  constructor
  · intro h
    rcases List.mem_flatMap.1 h with ⟨rn, hrn, hmem⟩
    rcases List.mem_map.1 hmem with ⟨cn, hcn, heq⟩
    rw [List.mem_range] at hrn hcn
    rw [Prod.ext_iff] at heq
    obtain ⟨he1, he2⟩ := heq
    exact ⟨by omega, by omega, by omega, by omega⟩
  · rintro ⟨a1, a2, a3, a4⟩
    refine List.mem_flatMap.2 ⟨r.toNat, ?_, List.mem_map.2 ⟨c.toNat, ?_, ?_⟩⟩
    · rw [List.mem_range]; omega
    · rw [List.mem_range]; omega
    · rw [Prod.ext_iff]
      exact ⟨by omega, by omega⟩

/-! ### Claim theorems: error handling and frame conditions -/

/-- Claim C8: would_be_in_check simulates the candidate move and undoes it
exactly.  For a piece stored consistently on the board and an in-bounds
target square, the board after the undo is the original board and the
piece's stored square is its original square (so every has_moved flag,
the occupant of the target square, and all other state are untouched;
en_passant_target is not even read). -/
theorem wbic_restores_state (b : Board) (p : Piece) (tr tc : Int)
    (hp : bget b p.row p.col = some p) (_ht : inBP tr tc) :
    (would_be_in_check_impl b p tr tc).2.1 = b ∧
    (would_be_in_check_impl b p tr tc).2.2 = p := by
  have hrestored :
      ({ color := p.color, piece_type := p.piece_type, row := p.row, col := p.col,
         has_moved := p.has_moved } : Piece) = p := by
    cases p
    rfl
  constructor
  · simp only [would_be_in_check_impl]
    by_cases hsq : p.row = tr ∧ p.col = tc
    · obtain ⟨e1, e2⟩ := hsq
      rw [← e1, ← e2, bset_bset_same, bset_bset_same, bset_bset_same, bset_bget_self]
    · rw [bset_comm _ tr tc p.row p.col _ _ (fun hx => hsq ⟨hx.1.symm, hx.2.symm⟩)]
      rw [bset_bset_same, bset_bset_same, hrestored, ← hp, bset_bget_self, bset_bget_self]
  · cases p
    rfl

/-- Claim C8 witness: the initial position, the a2 pawn, target a3. -/
theorem wbic_restores_state_witness :
    bget initBoard 6 0 = some ⟨.white, .pawn, 6, 0, false⟩ ∧ inBP 5 0 ∧
    (would_be_in_check_impl initBoard ⟨.white, .pawn, 6, 0, false⟩ 5 0).2.1 = initBoard ∧
    (would_be_in_check_impl initBoard ⟨.white, .pawn, 6, 0, false⟩ 5 0).2.2 =
      ⟨.white, .pawn, 6, 0, false⟩ := by
  refine ⟨by decide, by decide, ?_⟩
  exact wbic_restores_state initBoard ⟨.white, .pawn, 6, 0, false⟩ 5 0 (by decide) (by decide)

/-- Claim C7: move_piece with no selection, or with a destination that is
not in the offered valid_moves, returns False and the whole game state
record (board, flags, turn, history, counters) is returned unchanged. -/
theorem move_piece_rejected_noop (g : GState) (tr tc : Int)
    (h : g.selected_piece = none ∨ (tr, tc) ∉ g.valid_moves) :
    move_piece g tr tc = .ok (false, g) := by
  cases hs : g.selected_piece with
  | none => simp [move_piece, hs]
  | some sp =>
    rcases h with h | h
    · rw [hs] at h
      cases h
    · simp [move_piece, hs, h]

/-- Claim C7 witness: the fresh game has no selection; move_piece (0,0)
rejects and returns the state unchanged. -/
theorem move_piece_rejected_noop_witness :
    (initGState.selected_piece = none ∨ ((0 : Int), (0 : Int)) ∉ initGState.valid_moves) ∧
    move_piece initGState 0 0 = .ok (false, initGState) :=
  ⟨Or.inl rfl, move_piece_rejected_noop initGState 0 0 (Or.inl rfl)⟩

/-- Claim C3 evaluated on the code: a payload whose origin square is empty,
and a payload with a coordinate outside [0,7], both make apply_remote_move
raise (AttributeError on None, resp. IndexError) instead of the no-op the
spec requires. -/
theorem remote_malformed_raises :
    apply_remote_move initGState ⟨(3, 3), (4, 4), false, false⟩ = Except.error () ∧
    apply_remote_move initGState ⟨(8, 0), (4, 4), false, false⟩ = Except.error () :=
  ⟨rfl, rfl⟩

/-- Claim C5: from the initial position white has exactly 20 legal moves
(16 pawn moves plus 4 knight moves) and no black-occupied square can be
selected, so black has no initiable move. -/
theorem initial_mobility :
    moveCountFor initGState Color.white = 20 ∧
    moveCountForKind initGState Color.white PieceType.pawn = 16 ∧
    moveCountForKind initGState Color.white PieceType.knight = 4 ∧
    noneSelectable initGState Color.black = true :=
  ⟨rfl, rfl, rfl, rfl⟩

/-! ### Claim C1: the en-passant discovered-check unsoundness -/

/-- A legal game: 1.e4 a5 2.e5 a4 3.Ke2 Ra5 4.Kf3 e6 5.Kg4 Be7 6.Kh5 d5,
reaching a position where white's e5 pawn may capture d6 en passant while
the black rook on a5 is lined up behind the two pawns against the white
king on h5. -/
def c1Seq : List ((Int × Int) × (Int × Int)) :=
  [((6,4),(4,4)), ((1,0),(3,0)), ((4,4),(3,4)), ((3,0),(4,0)),
   ((7,4),(6,4)), ((0,0),(3,0)), ((6,4),(5,5)), ((1,4),(2,4)),
   ((5,5),(4,6)), ((0,5),(1,4)), ((4,6),(3,7)), ((1,3),(3,3))]

def c1Position : Option GState := runMoves initGState c1Seq

/-- Claim C1 refuted on the code at a reachable position: in the position
after c1Seq (every ply of which goes through select_piece and move_piece),
selecting the white pawn on (3,4) offers the en-passant capture (2,3) in
get_valid_moves, and executing it through move_piece leaves a state in
which is_in_check is true for white, the side that moved. -/
theorem ep_capture_soundness_bug :
    (c1Position.map fun g =>
      ((select_piece g 3 4).1, decide ((2, 3) ∈ (select_piece g 3 4).2.valid_moves))) =
      some (true, true) ∧
    ((c1Position.bind fun g => runMove g 3 4 2 3).map fun g2 =>
      is_in_check g2.board Color.white) = some true :=
  ⟨rfl, rfl⟩

/-! ### Counterexample states for C2, C4, C6, C10 -/

/-- The state after the local double push e2-e4 from the initial position. -/
def gAfterE4 : Option GState := runMove initGState 6 4 4 4

/-- The payload derived from the MoveRecord of e2-e4. -/
def e4Payload : Payload := ⟨(6, 4), (4, 4), false, false⟩

/-- Claim C2 counterexample: the local move e2-e4 yields
en_passant_target (5,4) while apply_remote_move with the payload derived
from its own MoveRecord (last conjunct) leaves en_passant_target none, so
the two resulting states differ. -/
theorem remote_ep_target_mismatch :
    (gAfterE4.map fun g => g.en_passant_target) = some (some (5, 4)) ∧
    ((apply_remote_move initGState e4Payload).map fun g => g.en_passant_target) =
      Except.ok none ∧
    (gAfterE4.map fun g =>
      g.move_history.map fun r => (r.fromSq, r.toSq, r.castling, r.en_passant)) =
      some [((6, 4), (4, 4), false, false)] :=
  ⟨rfl, rfl, rfl⟩

/-- A remote knight move g8-f6. -/
def knightPayload : Payload := ⟨(0, 6), (2, 5), false, false⟩

/-- Claim C4 counterexample: after the local double push e2-e4, applying a
remote knight move (not a pawn two-rank advance) leaves the stale
en_passant_target (5,4) in place instead of clearing it. -/
theorem remote_move_stale_ep :
    (gAfterE4.map fun g =>
      (apply_remote_move g knightPayload).map fun g2 =>
        (g2.en_passant_target, bget g2.board 2 5)) =
      some (Except.ok (some (5, 4), some ⟨.black, .knight, 2, 5, true⟩)) :=
  rfl

def c6King : Piece := ⟨.white, .king, 7, 3, false⟩

/-- White king on d1 (never moved), white bishop on e1, white rook on h1
(never moved), black king on a8; nothing attacks the back rank. -/
def c6Board : Board :=
  [[some ⟨.black, .king, 0, 0, false⟩, none, none, none, none, none, none, none],
   emptyRank, emptyRank, emptyRank, emptyRank, emptyRank, emptyRank,
   [none, none, none, some c6King, some ⟨.white, .bishop, 7, 4, false⟩, none, none,
    some ⟨.white, .rook, 7, 7, false⟩]]

/-- Claim C6 counterexample: the code offers the castling destination
(7,6) for a never-moved king on (7,3) although the square (7,4), strictly
between the king and the rook on (7,7), is occupied (the code only tests
files 5 and 6, relative to nothing but the king's rank). -/
theorem castle_offered_with_occupied_between :
    (7, 6) ∈ get_valid_moves c6Board none c6King ∧
    bget c6Board 7 4 ≠ none ∧
    c6King.has_moved = false ∧
    bget c6Board 7 3 = some c6King := by
  decide

/-! ### Helpers for reasoning about the Except-valued operations -/

def exceptOk {α : Type _} : Except Unit α → Bool
  | .ok _ => true
  | .error _ => false

theorem except_map_eq_ok {α β : Type _} (x : Except Unit α) (f : α → β) (b : β)
    (h : x.map f = .ok b) : ∃ a, x = .ok a ∧ f a = b := by
  cases x with
  | error e => simp [Except.map] at h
  | ok a => exact ⟨a, rfl, by simpa [Except.map] using h⟩

theorem mpOk_exists (x : Except Unit (Bool × GState)) (h : mpOk x = true) :
    ∃ g2, x = .ok (true, g2) ∧ mpState x = some g2 := by
  cases x with
  | error e => simp [mpOk] at h
  | ok pr =>
    obtain ⟨bb, g2⟩ := pr
    cases bb
    · simp [mpOk] at h
    · exact ⟨g2, rfl, rfl⟩

theorem except_map_map_proj {α β : Type _} (x : Except Unit α) (f : α → GState)
    (pj : GState → β) (v : β) (hv : ∀ a, pj (f a) = v)
    (hok : exceptOk (x.map f) = true) :
    (x.map f).map (fun g2 => pj g2) = .ok v := by
  cases x with
  | error e => simp [Except.map, exceptOk] at hok
  | ok a => simp [Except.map, hv a]

theorem except_map_ok {α β : Type _} (f : α → β) (a : α) :
    Except.map f (.ok a : Except Unit α) = .ok (f a) := rfl

theorem terminalUpdate_check (g : GState) (b : Board) (ep : Option (Int × Int)) (cur : Color) :
    (terminalUpdate g b ep cur).1 = is_in_check b cur := by
  simp only [terminalUpdate]
  split_ifs <;> rfl

theorem terminalUpdate_checkmate (g : GState) (b : Board) (ep : Option (Int × Int))
    (cur : Color) :
    (terminalUpdate g b ep cur).2.1 =
      (g.checkmate || (is_in_check b cur && is_checkmate b ep cur)) := by
  simp only [terminalUpdate]
  split_ifs with h1 h2 h3 <;> simp_all

/-- Pieces' stored squares match the board everywhere. -/
def boardConsistent (b : Board) : Prop :=
  ∀ r c p, bget b r c = some p → p.row = r ∧ p.col = c

theorem boardConsistent_of_all (b : Board)
    (h : (allSquares.all fun sq =>
      match bget b sq.1 sq.2 with
      | some p => decide (p.row = sq.1 ∧ p.col = sq.2)
      | none => true) = true) :
    boardConsistent b := by
  intro r c p hp
  have hmem : (r, c) ∈ allSquares := mem_allSquares.2 (bget_some_inBP hp)
  have := List.all_eq_true.1 h (r, c) hmem
  rw [hp] at this
  exact of_decide_eq_true this

def c10Pawn : Piece := ⟨.white, .pawn, 3, 4, true⟩

/-- White pawn on e5, white knight on d6, en-passant target pointing at
the knight's square d6. -/
def c10Board : Board :=
  [emptyRank, emptyRank,
   [none, none, none, some ⟨.white, .knight, 2, 3, false⟩, none, none, none, none],
   [none, none, none, none, some c10Pawn, none, none, none],
   emptyRank, emptyRank, emptyRank, emptyRank]

/-- Claim C10 counterexample: on a board whose occupancy is fully
consistent with every piece's stored square, get_valid_moves offers the
pawn the destination (2,3), which is occupied by a piece of the pawn's
own color, because the en-passant elif branch does not look at the
occupant of the target square. -/
theorem valid_move_onto_friendly_square :
    (2, 3) ∈ get_valid_moves c10Board (some (2, 3)) c10Pawn ∧
    bget c10Board 2 3 = some ⟨.white, .knight, 2, 3, false⟩ ∧
    bget c10Board 3 4 = some c10Pawn ∧
    boardConsistent c10Board :=
  ⟨by decide, by decide, by decide, boardConsistent_of_all _ (by decide)⟩

/-! ### Claim C4 (amended): the en-passant window after local moves -/

/-- Claim C4 as amended: after every successfully executed local move,
en_passant_target is exactly the passed-over square when the moved piece
was a pawn advancing two ranks and none otherwise; apply_remote_move, in
contrast, never touches en_passant_target (it keeps its prior value). -/
theorem ep_window_invariant :
    (∀ (g : GState) (sp : Piece) (tr tc : Int),
      g.selected_piece = some sp →
      mpOk (move_piece g tr tc) = true →
      (mpState (move_piece g tr tc)).map (fun g2 => g2.en_passant_target) =
        some (if sp.piece_type = PieceType.pawn ∧ (tr - sp.row).natAbs = 2 then
          some ((sp.row + tr).fdiv 2, tc)
        else none)) ∧
    (∀ (g : GState) (md : Payload),
      exceptOk (apply_remote_move g md) = true →
      (apply_remote_move g md).map (fun g2 => g2.en_passant_target) =
        .ok g.en_passant_target) := by
  constructor
  · intro g sp tr tc hs hok
    simp only [move_piece, hs] at hok ⊢
    by_cases hm : (tr, tc) ∈ g.valid_moves
    · simp only [if_pos hm] at hok ⊢
      obtain ⟨g2, hx, hst⟩ := mpOk_exists _ hok
      rw [hst]
      simp only [Option.map_some', Option.some.injEq]
      obtain ⟨cb, hc, hF⟩ := except_map_eq_ok _ _ _ hx
      have h2 := congrArg (fun pr : Bool × GState => pr.2.en_passant_target) hF
      dsimp only at h2
      exact h2.symm
    · rw [if_neg hm] at hok
      simp [mpOk] at hok
  · intro g md hok
    unfold apply_remote_move at hok ⊢
    cases h1 : pyIdx4 md with
    | error e =>
      try rw [h1] at hok
      simp [Except.bind, exceptOk] at hok
    | ok q =>
      obtain ⟨fr, fc, tr, tc⟩ := q
      try rw [h1] at hok
      try rw [h1]
      simp only [Except.bind] at hok ⊢
      cases h5 : bget g.board fr fc with
      | none =>
        try rw [h5] at hok
        simp [reqSome, Except.bind, exceptOk] at hok
      | some p =>
        try rw [h5] at hok
        try rw [h5]
        simp only [reqSome, Except.bind] at hok ⊢
        exact except_map_map_proj _ _ _ _ (fun a => rfl) hok

/-! ### Claim C9: promotion happens before the turn flip and evaluation -/

/-- Claim C9: when move_piece executes a pawn move onto its promotion rank
(row 0 for white, row 7 for black), the resulting state already holds the
queen on the destination square, the side to move has been flipped, the
check flag equals is_in_check evaluated on that post-promotion board for
the new side to move, and the checkmate flag is derived from is_checkmate
on that same board — so the promoted queen's attacks count in the check
and terminal flags of the very same move. -/
theorem promotion_before_evaluation (g : GState) (sp : Piece) (tr tc : Int)
    (hs : g.selected_piece = some sp)
    (hk : sp.piece_type = PieceType.pawn)
    (hpromo : (sp.color = Color.white ∧ tr = 0) ∨ (sp.color = Color.black ∧ tr = 7))
    (hshaped : Shaped g.board)
    (hin : inBP tr tc)
    (hok : mpOk (move_piece g tr tc) = true) :
    (mpState (move_piece g tr tc)).map (fun g2 =>
      (bget g2.board tr tc,
       decide (g2.current_player = g.current_player.other),
       decide (g2.check = is_in_check g2.board g2.current_player),
       decide (g2.checkmate = (g.checkmate ||
         (g2.check && is_checkmate g2.board g2.en_passant_target g2.current_player))))) =
      some (some (promote_pawn { sp with row := tr, col := tc, has_moved := true }),
        true, true, true) := by
  simp only [move_piece, hs] at hok ⊢
  by_cases hm : (tr, tc) ∈ g.valid_moves
  · simp only [if_pos hm] at hok ⊢
    have hnotking : ¬(sp.piece_type = PieceType.king ∧ (tc - sp.col).natAbs = 2) := by
      simp [hk]
    simp only [if_neg hnotking] at hok ⊢
    have hpromoC : sp.piece_type = PieceType.pawn ∧
        ((sp.color = Color.white ∧ tr = 0) ∨ (sp.color = Color.black ∧ tr = 7)) := ⟨hk, hpromo⟩
    simp only [if_pos hpromoC]
    simp only [except_map_ok, mpState, Option.map_some', Option.some.injEq, Prod.mk.injEq]
    have hshb2 : Shaped ((if sp.piece_type = PieceType.pawn ∧
          g.en_passant_target = some (tr, tc) then
        (true, bset g.board sp.row tc none, bget g.board sp.row tc)
      else (false, g.board, bget g.board tr tc)).2.1) := by
      by_cases hep : sp.piece_type = PieceType.pawn ∧ g.en_passant_target = some (tr, tc)
      · rw [if_pos hep]
        exact shaped_bset _ _ _ _ hshaped
      · rw [if_neg hep]
        exact hshaped
    refine ⟨?_, ?_, ?_, ?_⟩
    · exact bget_bset_self _ _ _ _ (shaped_bset _ _ _ _ (shaped_bset _ _ _ _ hshb2)) hin
    · simp only [decide_eq_true_eq]
    · simp only [decide_eq_true_eq]
      exact terminalUpdate_check _ _ _ _
    · simp only [decide_eq_true_eq]
      rw [terminalUpdate_checkmate, terminalUpdate_check]
  · rw [if_neg hm] at hok
    simp [mpOk] at hok

def c9Pawn : Piece := ⟨.white, .pawn, 1, 0, true⟩

def c9Board : Board :=
  [emptyRank, [some c9Pawn, none, none, none, none, none, none, none],
   emptyRank, emptyRank, emptyRank, emptyRank, emptyRank, emptyRank]

def c9G : GState :=
  { initGState with board := c9Board, selected_piece := some c9Pawn, valid_moves := [(0, 0)] }

/-- Claim C9 witness: a lone white pawn on (1,0) moving to (0,0) arrives
as a queen before the flags are computed. -/
theorem promotion_before_evaluation_witness :
    (c9G.selected_piece = some c9Pawn ∧ c9Pawn.piece_type = PieceType.pawn ∧
      (c9Pawn.color = Color.white ∧ (0 : Int) = 0) ∧ Shaped c9G.board ∧
      inBP 0 0 ∧ mpOk (move_piece c9G 0 0) = true) ∧
    (mpState (move_piece c9G 0 0)).map (fun g2 =>
      (bget g2.board 0 0,
       decide (g2.current_player = c9G.current_player.other),
       decide (g2.check = is_in_check g2.board g2.current_player),
       decide (g2.checkmate = (c9G.checkmate ||
         (g2.check && is_checkmate g2.board g2.en_passant_target g2.current_player))))) =
      some (some (promote_pawn { c9Pawn with row := 0, col := 0, has_moved := true }),
        true, true, true) :=
  ⟨⟨rfl, rfl, ⟨rfl, rfl⟩, ⟨rfl, by decide⟩, by decide, rfl⟩,
   promotion_before_evaluation c9G c9Pawn 0 0 rfl rfl (Or.inl ⟨rfl, rfl⟩)
     ⟨rfl, by decide⟩ (by decide) rfl⟩

/-- Claim C4 witness: the double push e2-e4 sets the window to (5,4); the
remote knight payload applied to the fresh game keeps the (empty) window. -/
theorem ep_window_invariant_witness :
    ((select_piece initGState 6 4).2.selected_piece = some ⟨.white, .pawn, 6, 4, false⟩ ∧
      mpOk (move_piece (select_piece initGState 6 4).2 4 4) = true ∧
      (mpState (move_piece (select_piece initGState 6 4).2 4 4)).map
          (fun g2 => g2.en_passant_target) =
        some (if (⟨.white, .pawn, 6, 4, false⟩ : Piece).piece_type = PieceType.pawn ∧
            ((4 : Int) - (⟨.white, .pawn, 6, 4, false⟩ : Piece).row).natAbs = 2 then
          some (((⟨.white, .pawn, 6, 4, false⟩ : Piece).row + 4).fdiv 2, 4)
        else none)) ∧
    (exceptOk (apply_remote_move initGState knightPayload) = true ∧
      (apply_remote_move initGState knightPayload).map (fun g2 => g2.en_passant_target) =
        .ok initGState.en_passant_target) :=
  ⟨⟨rfl, rfl,
    ep_window_invariant.1 (select_piece initGState 6 4).2 ⟨.white, .pawn, 6, 4, false⟩ 4 4
      rfl rfl⟩,
   ⟨rfl, ep_window_invariant.2 initGState knightPayload rfl⟩⟩

/-! ### Claim C10 (amended): well-formedness of generated moves -/

theorem moveRay_mem (b : Board) (col0 : Color) (n : Nat) :
    ∀ (row col dr dc : Int) (t : Int × Int), t ∈ moveRay b col0 row col dr dc n →
      inBP t.1 t.2 ∧
      (∀ q, bget b t.1 t.2 = some q → q.color ≠ col0) ∧
      (0 < dr → row < t.1) ∧ (dr = 0 → t.1 = row) ∧ (dr < 0 → t.1 < row) ∧
      (0 < dc → col < t.2) ∧ (dc = 0 → t.2 = col) ∧ (dc < 0 → t.2 < col) := by
  induction n with
  | zero => intro row col dr dc t ht; simp [moveRay] at ht
  | succ n ih =>
    intro row col dr dc t ht
    simp only [moveRay] at ht
    by_cases hb : inBP (row + dr) (col + dc)
    · rw [if_pos hb] at ht
      cases hg : bget b (row + dr) (col + dc) with
      | none =>
        rw [hg] at ht
        rcases List.mem_cons.1 ht with he | ht2
        · subst he
          refine ⟨hb, ?_, ?_, ?_, ?_, ?_, ?_, ?_⟩ <;> try (intro hx; omega)
          · intro q hq
            dsimp only at hq
            rw [hg] at hq
            cases hq
        · obtain ⟨m1, m2, m3, m4, m5, m6, m7, m8⟩ := ih (row + dr) (col + dc) dr dc t ht2
          refine ⟨m1, m2, ?_, ?_, ?_, ?_, ?_, ?_⟩ <;> intro hx
          · have := m3 hx; omega
          · have := m4 hx; omega
          · have := m5 hx; omega
          · have := m6 hx; omega
          · have := m7 hx; omega
          · have := m8 hx; omega
      | some tp =>
        rw [hg] at ht
        have ht' : t ∈ (if tp.color ≠ col0 then [(row + dr, col + dc)] else ([] : List (Int × Int))) := ht
        by_cases hco : tp.color ≠ col0
        · rw [if_pos hco] at ht' 
          rcases List.mem_cons.1 ht' with he | ht2
          · subst he
            refine ⟨hb, ?_, ?_, ?_, ?_, ?_, ?_, ?_⟩ <;> try (intro hx; omega)
            · intro q hq
              dsimp only at hq
              rw [hg] at hq
              cases hq
              exact hco
          · simp at ht2
        · rw [if_neg hco] at ht'
          simp at ht' 
    · rw [if_neg hb] at ht
      simp at ht

theorem moveRay_ne (b : Board) (col0 : Color) (n : Nat) (row col dr dc : Int) (t : Int × Int)
    (ht : t ∈ moveRay b col0 row col dr dc n) (h0 : ¬(dr = 0 ∧ dc = 0)) :
    t ≠ (row, col) := by
  obtain ⟨_, _, h1, h2, h3, h4, h5, h6⟩ := moveRay_mem b col0 n row col dr dc t ht
  intro he
  have e1 : t.1 = row := by rw [he]
  have e2 : t.2 = col := by rw [he]
  rcases Int.lt_trichotomy dr 0 with h | h | h
  · have := h3 h; omega
  · rcases Int.lt_trichotomy dc 0 with h' | h' | h'
    · have := h6 h'; omega
    · exact h0 ⟨h, h'⟩
    · have := h4 h'; omega
  · have := h1 h; omega

theorem stepMoves_mem (b : Board) (p : Piece) (dirs : List (Int × Int)) (t : Int × Int)
    (ht : t ∈ stepMoves b p dirs) :
    ∃ dd ∈ dirs, t = (p.row + dd.1, p.col + dd.2) ∧ inBP t.1 t.2 ∧
      ∀ q, bget b t.1 t.2 = some q → q.color ≠ p.color := by
  rcases List.mem_filterMap.1 ht with ⟨dd, hdd, hf⟩
  refine ⟨dd, hdd, ?_⟩
  by_cases hb : inBP (p.row + dd.1) (p.col + dd.2)
  · rw [if_pos hb] at hf
    cases hg : bget b (p.row + dd.1) (p.col + dd.2) with
    | none =>
      rw [hg] at hf
      cases hf
      refine ⟨rfl, hb, ?_⟩
      intro q hq
      dsimp only at hq
      rw [hg] at hq
      cases hq
    | some tp =>
      rw [hg] at hf
      have hf' : (if tp.color ≠ p.color then some (p.row + dd.1, p.col + dd.2) else none) = some t := hf
      by_cases hco : tp.color ≠ p.color
      · rw [if_pos hco] at hf'
        cases hf' 
        refine ⟨rfl, hb, ?_⟩
        intro q hq
        dsimp only at hq
        rw [hg] at hq
        cases hq
        exact hco
      · rw [if_neg hco] at hf'
        cases hf'
  · rw [if_neg hb] at hf
    cases hf

theorem pawnDiag_wf (b : Board) (ep : Option (Int × Int)) (p : Piece) (d dc : Int)
    (_hp : bget b p.row p.col = some p)
    (hep : ∀ sq, ep = some sq → bget b sq.1 sq.2 = none)
    (t : Int × Int)
    (hdm : t ∈ (if 0 ≤ p.row + d ∧ p.row + d < 8 ∧ 0 ≤ p.col + dc ∧ p.col + dc < 8 then
        match bget b (p.row + d) (p.col + dc) with
        | some t2 => if t2.color ≠ p.color then [(p.row + d, p.col + dc)]
            else if ep = some (p.row + d, p.col + dc) then [(p.row + d, p.col + dc)] else []
        | none =>
          if ep = some (p.row + d, p.col + dc) then [(p.row + d, p.col + dc)] else []
      else []))
    (hd0 : d ≠ 0) :
    inBP t.1 t.2 ∧ t ≠ (p.row, p.col) ∧
      ∀ q, bget b t.1 t.2 = some q → q.color ≠ p.color := by
  by_cases hD : 0 ≤ p.row + d ∧ p.row + d < 8 ∧ 0 ≤ p.col + dc ∧ p.col + dc < 8
  · rw [if_pos hD] at hdm
    cases hg : bget b (p.row + d) (p.col + dc) with
    | some t2 =>
      rw [hg] at hdm
      have hdm2 : t ∈ (if t2.color ≠ p.color then [(p.row + d, p.col + dc)]
          else if ep = some (p.row + d, p.col + dc) then [(p.row + d, p.col + dc)]
          else ([] : List (Int × Int))) := hdm
      by_cases hco : t2.color ≠ p.color
      · rw [if_pos hco] at hdm2
        rcases List.mem_singleton.1 hdm2 with he
        subst he
        refine ⟨hD, ?_, ?_⟩
        · intro he2
          rw [Prod.ext_iff] at he2
          dsimp only at he2
          omega
        · intro q hq
          dsimp only at hq
          rw [hg] at hq
          cases hq
          exact hco
      · rw [if_neg hco] at hdm2
        by_cases hE : ep = some (p.row + d, p.col + dc)
        · have hee := hep _ hE
          dsimp only at hee
          rw [hg] at hee
          cases hee
        · rw [if_neg hE] at hdm2
          simp at hdm2
    | none =>
      rw [hg] at hdm
      have hdm2 : t ∈ (if ep = some (p.row + d, p.col + dc) then [(p.row + d, p.col + dc)]
          else ([] : List (Int × Int))) := hdm
      by_cases hE : ep = some (p.row + d, p.col + dc)
      · rw [if_pos hE] at hdm2
        rcases List.mem_singleton.1 hdm2 with he
        subst he
        refine ⟨hD, ?_, ?_⟩
        · intro he2
          rw [Prod.ext_iff] at he2
          dsimp only at he2
          omega
        · intro q hq
          dsimp only at hq
          rw [hg] at hq
          cases hq
      · rw [if_neg hE] at hdm2
        simp at hdm2
  · rw [if_neg hD] at hdm
    simp at hdm

theorem pawnMovesD_wf (b : Board) (ep : Option (Int × Int)) (p : Piece) (d : Int)
    (hp : bget b p.row p.col = some p)
    (hep : ∀ sq, ep = some sq → bget b sq.1 sq.2 = none)
    (hd0 : d ≠ 0) :
    ∀ t ∈ pawnMovesD b ep p d, inBP t.1 t.2 ∧ t ≠ (p.row, p.col) ∧
      ∀ q, bget b t.1 t.2 = some q → q.color ≠ p.color := by
  intro t ht
  obtain ⟨hr0, hr1, hc0, hc1⟩ := bget_some_inBP hp
  simp only [pawnMovesD] at ht
  rcases List.mem_append.1 ht with h | h
  · rcases List.mem_append.1 h with h | h
    · -- forward pushes
      by_cases hF : 0 ≤ p.row + d ∧ p.row + d < 8 ∧ bget b (p.row + d) p.col = none
      · rw [if_pos hF] at h
        rcases List.mem_cons.1 h with he | h2
        · subst he
          refine ⟨⟨by omega, by omega, hc0, hc1⟩, ?_, ?_⟩
          · intro he2
            rw [Prod.ext_iff] at he2
            dsimp only at he2
            omega
          · intro q hq
            dsimp only at hq
            rw [hF.2.2] at hq
            cases hq
        · by_cases hF2 : ¬p.has_moved ∧ 0 ≤ p.row + 2*d ∧ p.row + 2*d < 8 ∧
              bget b (p.row + 2*d) p.col = none
          · rw [if_pos hF2] at h2
            rcases List.mem_singleton.1 h2 with he
            subst he
            refine ⟨⟨by omega, by omega, hc0, hc1⟩, ?_, ?_⟩
            · intro he2
              rw [Prod.ext_iff] at he2
              dsimp only at he2
              omega
            · intro q hq
              dsimp only at hq
              rw [hF2.2.2.2] at hq
              cases hq
          · rw [if_neg hF2] at h2
            simp at h2
      · rw [if_neg hF] at h
        simp at h
    · exact pawnDiag_wf b ep p d (-1) hp hep t h hd0
  · exact pawnDiag_wf b ep p d 1 hp hep t h hd0

theorem castleMoves_mem (b : Board) (p : Piece) (t : Int × Int)
    (ht : t ∈ castleMoves b p) :
    (t = (p.row, 6) ∧ ¬p.has_moved ∧ is_in_check b p.color = false ∧
      (∃ r7, bget b p.row 7 = some r7 ∧ r7.piece_type = PieceType.rook ∧
        r7.has_moved = false) ∧
      bget b p.row 5 = none ∧ bget b p.row 6 = none ∧
      is_square_attacked b p.row 5 p.color = false ∧
      is_square_attacked b p.row 6 p.color = false) ∨
    (t = (p.row, 2) ∧ ¬p.has_moved ∧ is_in_check b p.color = false ∧
      (∃ r0, bget b p.row 0 = some r0 ∧ r0.piece_type = PieceType.rook ∧
        r0.has_moved = false) ∧
      bget b p.row 1 = none ∧ bget b p.row 2 = none ∧ bget b p.row 3 = none ∧
      is_square_attacked b p.row 3 p.color = false ∧
      is_square_attacked b p.row 2 p.color = false) := by
  simp only [castleMoves] at ht
  by_cases hc : ¬p.has_moved ∧ is_in_check b p.color = false
  · rw [if_pos hc] at ht
    rcases List.mem_append.1 ht with h | h
    · -- kingside
      left
      cases hb7 : bget b p.row 7 with
      | none => rw [hb7] at h; simp at h
      | some r7 =>
        rw [hb7] at h
        have h' : t ∈ (if r7.piece_type = PieceType.rook ∧ r7.has_moved = false ∧
            bget b p.row 5 = none ∧ bget b p.row 6 = none then
            (if is_square_attacked b p.row 5 p.color = false ∧
                is_square_attacked b p.row 6 p.color = false then
              [((p.row : Int), (6 : Int))] else [])
          else []) := h
        by_cases h1 : r7.piece_type = PieceType.rook ∧ r7.has_moved = false ∧
            bget b p.row 5 = none ∧ bget b p.row 6 = none
        · rw [if_pos h1] at h'
          by_cases h2 : is_square_attacked b p.row 5 p.color = false ∧
              is_square_attacked b p.row 6 p.color = false
          · rw [if_pos h2] at h'
            rcases List.mem_singleton.1 h' with he
            subst he
            exact ⟨rfl, hc.1, hc.2, ⟨r7, rfl, h1.1, h1.2.1⟩, h1.2.2.1, h1.2.2.2, h2.1, h2.2⟩
          · rw [if_neg h2] at h'
            simp at h'
        · rw [if_neg h1] at h'
          simp at h'
    · -- queenside
      right
      cases hb0 : bget b p.row 0 with
      | none => rw [hb0] at h; simp at h
      | some r0 =>
        rw [hb0] at h
        have h' : t ∈ (if r0.piece_type = PieceType.rook ∧ r0.has_moved = false ∧
            bget b p.row 1 = none ∧ bget b p.row 2 = none ∧ bget b p.row 3 = none then
            (if is_square_attacked b p.row 3 p.color = false ∧
                is_square_attacked b p.row 2 p.color = false then
              [((p.row : Int), (2 : Int))] else [])
          else []) := h
        by_cases h1 : r0.piece_type = PieceType.rook ∧ r0.has_moved = false ∧
            bget b p.row 1 = none ∧ bget b p.row 2 = none ∧ bget b p.row 3 = none
        · rw [if_pos h1] at h'
          by_cases h2 : is_square_attacked b p.row 3 p.color = false ∧
              is_square_attacked b p.row 2 p.color = false
          · rw [if_pos h2] at h'
            rcases List.mem_singleton.1 h' with he
            subst he
            exact ⟨rfl, hc.1, hc.2, ⟨r0, rfl, h1.1, h1.2.1⟩, h1.2.2.1, h1.2.2.2.1,
              h1.2.2.2.2, h2.1, h2.2⟩
          · rw [if_neg h2] at h'
            simp at h'
        · rw [if_neg h1] at h'
          simp at h'
  · rw [if_neg hc] at ht
    simp at ht

/-- Claim C10 as amended: for every board on which the piece is stored
consistently and whose en-passant target square (when set) is empty,
every move offered by get_valid_moves is on the board, differs from the
piece's own square, and does not land on a piece of the same color.  (The
emptiness hypothesis is forced by the counterexample above: the code's
en-passant branch ignores the occupant of the target square.) -/
theorem get_valid_moves_wf (b : Board) (ep : Option (Int × Int)) (p : Piece)
    (hp : bget b p.row p.col = some p)
    (hep : ∀ sq, ep = some sq → bget b sq.1 sq.2 = none) :
    ∀ m ∈ get_valid_moves b ep p,
      inBP m.1 m.2 ∧ m ≠ (p.row, p.col) ∧
        ∀ q, bget b m.1 m.2 = some q → q.color ≠ p.color := by
  intro m hm
  have hm' : m ∈ pseudoMoves b ep p := List.mem_of_mem_filter hm
  obtain ⟨hr0, hr1, hc0, hc1⟩ := bget_some_inBP hp
  have hstep : ∀ dirs : List (Int × Int), (∀ dd ∈ dirs, ¬(dd.1 = 0 ∧ dd.2 = 0)) →
      m ∈ stepMoves b p dirs →
      inBP m.1 m.2 ∧ m ≠ (p.row, p.col) ∧
        ∀ q, bget b m.1 m.2 = some q → q.color ≠ p.color := by
    intro dirs h0 hms
    obtain ⟨dd, hdd, he, hin, hocc⟩ := stepMoves_mem b p dirs m hms
    refine ⟨hin, ?_, hocc⟩
    intro heq
    rw [heq] at he
    rw [Prod.ext_iff] at he
    dsimp only at he
    have h0' := h0 dd hdd
    rw [Classical.not_and_iff_or_not_not] at h0'
    rcases h0' with h' | h' <;> omega
  have hslide : ∀ dirs : List (Int × Int), (∀ dd ∈ dirs, ¬(dd.1 = 0 ∧ dd.2 = 0)) →
      m ∈ dirs.flatMap (fun dd => moveRay b p.color p.row p.col dd.1 dd.2 7) →
      inBP m.1 m.2 ∧ m ≠ (p.row, p.col) ∧
        ∀ q, bget b m.1 m.2 = some q → q.color ≠ p.color := by
    intro dirs h0 hms
    rcases List.mem_flatMap.1 hms with ⟨dd, hdd, hray⟩
    obtain ⟨m1, m2, _⟩ := moveRay_mem b p.color 7 p.row p.col dd.1 dd.2 m hray
    exact ⟨m1, moveRay_ne b p.color 7 p.row p.col dd.1 dd.2 m hray (h0 dd hdd), m2⟩
  cases hk : p.piece_type
  case pawn =>
    simp only [pseudoMoves, hk] at hm'
    have hd0 : (if p.color = Color.white then (-1 : Int) else 1) ≠ 0 := by
      split <;> omega
    exact pawnMovesD_wf b ep p _ hp hep hd0 m hm'
  case rook =>
    simp only [pseudoMoves, hk] at hm'
    exact hslide rookDirs (by decide) hm'
  case knight =>
    simp only [pseudoMoves, hk] at hm'
    exact hstep knightDirs (by decide) hm'
  case bishop =>
    simp only [pseudoMoves, hk] at hm'
    exact hslide bishopDirs (by decide) hm'
  case queen =>
    simp only [pseudoMoves, hk] at hm'
    exact hslide queenDirs (by decide) hm'
  case king =>
    simp only [pseudoMoves, hk] at hm'
    rcases List.mem_append.1 hm' with h | h
    · exact hstep kingDirs (by decide) h
    · rcases castleMoves_mem b p m h with ⟨he, _, _, _, _, h6, _, _⟩ | ⟨he, _, _, _, _, h2, _, _, _⟩
      · subst he
        refine ⟨⟨hr0, hr1, by omega, by omega⟩, ?_, ?_⟩
        · intro heq
          rw [Prod.ext_iff] at heq
          dsimp only at heq
          have hc6 : p.col = 6 := heq.2.symm
          rw [hc6] at hp
          rw [hp] at h6
          cases h6
        · intro q hq
          dsimp only at hq
          rw [h6] at hq
          cases hq
      · subst he
        refine ⟨⟨hr0, hr1, by omega, by omega⟩, ?_, ?_⟩
        · intro heq
          rw [Prod.ext_iff] at heq
          dsimp only at heq
          have hc2 : p.col = 2 := heq.2.symm
          rw [hc2] at hp
          rw [hp] at h2
          cases h2
        · intro q hq
          dsimp only at hq
          rw [h2] at hq
          cases hq

/-- Claim C10 witness: the initial-position a2 pawn and its offered move
a3. -/
theorem get_valid_moves_wf_witness :
    bget initBoard 6 0 = some ⟨.white, .pawn, 6, 0, false⟩ ∧
    (5, 0) ∈ get_valid_moves initBoard none ⟨.white, .pawn, 6, 0, false⟩ ∧
    inBP 5 0 ∧ ((5 : Int), (0 : Int)) ≠ ((6 : Int), (0 : Int)) :=
  ⟨by decide, by decide,
   (get_valid_moves_wf initBoard none ⟨.white, .pawn, 6, 0, false⟩ (by decide)
     (fun sq h => nomatch h) (5, 0) (by decide)).1,
   (get_valid_moves_wf initBoard none ⟨.white, .pawn, 6, 0, false⟩ (by decide)
     (fun sq h => nomatch h) (5, 0) (by decide)).2.1⟩

/-! ### Claim C6 (amended): the castling offer conditions for a home-square king -/

theorem color_other_ne (c : Color) : c.other ≠ c := by cases c <;> simp [Color.other]

theorem find?_eq_some_unique {α : Type _} (pr : α → Bool) (x : α) :
    ∀ (l : List α), x ∈ l → pr x = true → (∀ y ∈ l, pr y = true → y = x) →
      l.find? pr = some x := by
  intro l
  induction l with
  | nil => intro hx _ _; cases hx
  | cons a as ih =>
    intro hx hpx hu
    by_cases ha : pr a = true
    · rw [List.find?_cons_of_pos _ ha, hu a (List.mem_cons_self _ _) ha]
    · rw [List.find?_cons_of_neg _ (by simpa using ha)]
      rcases List.mem_cons.1 hx with rfl | hx2
      · exact absurd hpx ha
      · exact ih hx2 hpx (fun y hy hpy => hu y (List.mem_cons_of_mem _ hy) hpy)

theorem find_king_eq (b : Board) (c : Color) (kr kc : Int) (kp : Piece)
    (hk : bget b kr kc = some kp) (hc : kp.color = c) (ht : kp.piece_type = PieceType.king)
    (hu : ∀ r c' q, bget b r c' = some q → q.color = c → q.piece_type = PieceType.king →
      r = kr ∧ c' = kc) :
    find_king b c = some (kr, kc) := by
  unfold find_king
  apply find?_eq_some_unique
  · exact mem_allSquares.2 (bget_some_inBP hk)
  · show (match bget b (kr, kc).1 (kr, kc).2 with
      | some p => decide (p.color = c ∧ p.piece_type = PieceType.king)
      | none => false) = true
    dsimp only
    rw [hk]
    simp [hc, ht]
  · rintro ⟨r', c'⟩ hy hpy
    dsimp only at hpy
    cases hq : bget b r' c' with
    | none => rw [hq] at hpy; cases hpy
    | some q =>
      rw [hq] at hpy
      obtain ⟨h1, h2⟩ := of_decide_eq_true hpy
      obtain ⟨e1, e2⟩ := hu r' c' q hq h1 h2
      rw [e1, e2]

theorem is_square_attacked_intro (b : Board) (r0 c0 : Int) (color : Color)
    (ar ac : Int) (q : Piece)
    (hq : bget b ar ac = some q) (hcol : q.color = color.other)
    (hatt : (r0, c0) ∈ get_all_attacking_moves b q) :
    is_square_attacked b r0 c0 color = true := by
  unfold is_square_attacked
  apply List.any_eq_true.2
  refine ⟨(ar, ac), mem_allSquares.2 (bget_some_inBP hq), ?_⟩
  dsimp only
  rw [hq]
  simp [hcol, hatt]

theorem is_in_check_intro (b : Board) (color : Color) (kr kc : Int)
    (hfk : find_king b color = some (kr, kc)) (ar ac : Int) (q : Piece)
    (hq : bget b ar ac = some q) (hcol : q.color = color.other)
    (hatt : (kr, kc) ∈ get_all_attacking_moves b q) :
    is_in_check b color = true := by
  unfold is_in_check
  rw [hfk]
  apply List.any_eq_true.2
  refine ⟨(ar, ac), mem_allSquares.2 (bget_some_inBP hq), ?_⟩
  dsimp only
  rw [hq]
  simp [hcol, hatt]

theorem attackRay_transfer (b b' : Board) (x : Int × Int)
    (h : ∀ r c, bget b' r c = none → bget b r c = none ∨ (r, c) = x) (n : Nat) :
    ∀ row col dr dc t, t ∈ attackRay b' row col dr dc n →
      t ∈ attackRay b row col dr dc n ∨ x ∈ attackRay b row col dr dc n := by
  induction n with
  | zero => intro row col dr dc t ht; simp [attackRay] at ht
  | succ n ih =>
    intro row col dr dc t ht
    simp only [attackRay] at ht ⊢
    by_cases hb : inBP (row + dr) (col + dc)
    · rw [if_pos hb] at ht ⊢
      have hhead : ∀ bb : Board, (row + dr, col + dc) ∈
          (if bget bb (row + dr) (col + dc) = none then
            (row + dr, col + dc) :: attackRay bb (row + dr) (col + dc) dr dc n
          else [(row + dr, col + dc)]) := by
        intro bb
        split
        · exact List.mem_cons_self _ _
        · exact List.mem_singleton.2 rfl
      by_cases hb' : bget b' (row + dr) (col + dc) = none
      · rw [if_pos hb'] at ht
        rcases List.mem_cons.1 ht with rfl | htail
        · exact Or.inl (hhead b)
        · rcases h _ _ hb' with hgb | hgx
          · rw [if_pos hgb]
            rcases ih (row + dr) (col + dc) dr dc t htail with h1 | h1
            · exact Or.inl (List.mem_cons_of_mem _ h1)
            · exact Or.inr (List.mem_cons_of_mem _ h1)
          · right
            rw [← hgx]
            exact hhead b
      · rw [if_neg hb'] at ht
        rcases List.mem_singleton.1 ht with rfl
        exact Or.inl (hhead b)
    · rw [if_neg hb] at ht
      simp at ht

theorem attacks_transfer (b b' : Board) (x : Int × Int)
    (h : ∀ r c, bget b' r c = none → bget b r c = none ∨ (r, c) = x)
    (q : Piece) (t : Int × Int) (ht : t ∈ get_all_attacking_moves b' q) :
    t ∈ get_all_attacking_moves b q ∨ x ∈ get_all_attacking_moves b q := by
  cases hk : q.piece_type <;> simp only [get_all_attacking_moves, hk] at ht ⊢
  case pawn => exact Or.inl ht
  case knight => exact Or.inl ht
  case king => exact Or.inl ht
  all_goals {
    rcases List.mem_flatMap.1 ht with ⟨dd, hdd, hray⟩
    rcases attackRay_transfer b b' x h 7 q.row q.col dd.1 dd.2 t hray with h1 | h1
    · exact Or.inl (List.mem_flatMap.2 ⟨dd, hdd, h1⟩)
    · exact Or.inr (List.mem_flatMap.2 ⟨dd, hdd, h1⟩) }

theorem no_check_after_king_shift (b bS : Board) (p pM : Piece) (row tcol : Int)
    (hpMc : pM.color = p.color) (hpMk : pM.piece_type = PieceType.king)
    (hgSt : bget bS row tcol = some pM)
    (hgS4 : bget bS row 4 = none)
    (hgSo : ∀ r c, ¬(r = row ∧ c = tcol) → ¬(r = row ∧ c = 4) → bget bS r c = bget b r c)
    (hp : bget b row 4 = some p) (hk : p.piece_type = PieceType.king)
    (huniq : ∀ r c q, bget b r c = some q → q.color = p.color →
      q.piece_type = PieceType.king → r = row ∧ c = 4)
    (hnc : is_in_check b p.color = false)
    (hatk : is_square_attacked b row tcol p.color = false) :
    is_in_check bS p.color = false := by
  have hfkS : find_king bS p.color = some (row, tcol) := by
    apply find_king_eq bS p.color row tcol pM hgSt hpMc hpMk
    intro r c' q hq hqc hqk
    by_cases h1 : r = row ∧ c' = tcol
    · exact h1
    · by_cases h2 : r = row ∧ c' = 4
      · obtain ⟨e1, e2⟩ := h2
        rw [e1, e2, hgS4] at hq
        cases hq
      · rw [hgSo r c' h1 h2] at hq
        exact absurd (huniq r c' q hq hqc hqk) h2
  unfold is_in_check
  rw [hfkS]
  by_contra hcon
  rw [Bool.not_eq_false] at hcon
  obtain ⟨⟨ar, ac⟩, hmem, hpred⟩ := List.any_eq_true.1 hcon
  dsimp only at hpred
  cases hq : bget bS ar ac with
  | none => rw [hq] at hpred; cases hpred
  | some q =>
    rw [hq] at hpred
    have hpred2 : (if q.color = p.color.other then
        decide ((row, tcol) ∈ get_all_attacking_moves bS q) else false) = true := hpred
    by_cases hqc : q.color = p.color.other
    · rw [if_pos hqc] at hpred2
      have hatt := of_decide_eq_true hpred2
      have hne1 : ¬(ar = row ∧ ac = 4) := by
        rintro ⟨e1, e2⟩
        rw [e1, e2, hgS4] at hq
        cases hq
      have hne2 : ¬(ar = row ∧ ac = tcol) := by
        rintro ⟨e1, e2⟩
        rw [e1, e2, hgSt] at hq
        injection hq with hq2
        rw [← hq2] at hqc
        rw [hpMc] at hqc
        exact color_other_ne p.color hqc.symm
      have hqb : bget b ar ac = some q := by
        rw [← hgSo ar ac hne2 hne1]
        exact hq
      have htr := attacks_transfer b bS (row, 4) ?htrans q (row, tcol) hatt
      case htrans =>
        intro r c hnone
        by_cases h1 : r = row ∧ c = tcol
        · obtain ⟨e1, e2⟩ := h1
          rw [e1, e2, hgSt] at hnone
          cases hnone
        · by_cases h2 : r = row ∧ c = 4
          · right
            obtain ⟨e1, e2⟩ := h2
            rw [e1, e2]
          · left
            rw [← hgSo r c h1 h2]
            exact hnone
      rcases htr with h1 | h1
      · have := is_square_attacked_intro b row tcol p.color ar ac q hqb hqc h1
        rw [hatk] at this
        cases this
      · have hfk : find_king b p.color = some (row, 4) :=
          find_king_eq b p.color row 4 p hp rfl hk huniq
        have := is_in_check_intro b p.color row 4 hfk ar ac q hqb hqc h1
        rw [hnc] at this
        cases this
    · rw [if_neg hqc] at hpred2
      cases hpred2

theorem wbic_castle_false (b : Board) (p : Piece) (row tcol : Int)
    (hsh : Shaped b) (hp : bget b row 4 = some p) (hrow : p.row = row) (hcol : p.col = 4)
    (hk : p.piece_type = PieceType.king)
    (huniq : ∀ r c q, bget b r c = some q → q.color = p.color →
      q.piece_type = PieceType.king → r = row ∧ c = 4)
    (htc : tcol = 6 ∨ tcol = 2)
    (hnc : is_in_check b p.color = false)
    (hatk : is_square_attacked b row tcol p.color = false) :
    would_be_in_check b p row tcol = false := by
  have hinb : inBP row 4 := bget_some_inBP hp
  obtain ⟨hb0, hb1, _, _⟩ := hinb
  have hin4 : inBP row 4 := ⟨hb0, hb1, by omega, by omega⟩
  have hint : inBP row tcol := ⟨hb0, hb1, by omega, by omega⟩
  have hnet : ¬(row = row ∧ tcol = 4) := by
    rintro ⟨-, e⟩
    omega
  show is_in_check
      (bset (bset b p.row p.col none) row tcol (some { p with row := row, col := tcol }))
      p.color = false
  rw [hrow, hcol]
  apply no_check_after_king_shift b _ p { p with row := row, col := tcol } row tcol rfl hk
  · exact bget_bset_self _ _ _ _ (shaped_bset _ _ _ _ hsh) hint
  · rw [bget_bset_ne _ _ _ _ _ _ hnet]
    exact bget_bset_self _ _ _ _ hsh hin4
  · intro r c h1 h2
    rw [bget_bset_ne _ _ _ _ _ _ (fun hx => h1 ⟨hx.1.symm, hx.2.symm⟩)]
    exact bget_bset_ne _ _ _ _ _ _ (fun hx => h2 ⟨hx.1.symm, hx.2.symm⟩)
  · exact hp
  · exact hk
  · exact huniq
  · exact hnc
  · exact hatk

theorem castleMoves_intro_k (b : Board) (p r7 : Piece)
    (hm : ¬p.has_moved) (hnc : is_in_check b p.color = false)
    (h7 : bget b p.row 7 = some r7) (h7r : r7.piece_type = PieceType.rook)
    (h7m : r7.has_moved = false)
    (he5 : bget b p.row 5 = none) (he6 : bget b p.row 6 = none)
    (ha5 : is_square_attacked b p.row 5 p.color = false)
    (ha6 : is_square_attacked b p.row 6 p.color = false) :
    (p.row, 6) ∈ castleMoves b p := by
  simp only [castleMoves, if_pos (And.intro hm hnc), h7]
  apply List.mem_append.2
  left
  rw [if_pos ⟨h7r, h7m, he5, he6⟩, if_pos ⟨ha5, ha6⟩]
  exact List.mem_singleton.2 rfl

theorem castleMoves_intro_q (b : Board) (p r0 : Piece)
    (hm : ¬p.has_moved) (hnc : is_in_check b p.color = false)
    (h0 : bget b p.row 0 = some r0) (h0r : r0.piece_type = PieceType.rook)
    (h0m : r0.has_moved = false)
    (he1 : bget b p.row 1 = none) (he2 : bget b p.row 2 = none)
    (he3 : bget b p.row 3 = none)
    (ha3 : is_square_attacked b p.row 3 p.color = false)
    (ha2 : is_square_attacked b p.row 2 p.color = false) :
    (p.row, 2) ∈ castleMoves b p := by
  simp only [castleMoves, if_pos (And.intro hm hnc), h0]
  apply List.mem_append.2
  right
  rw [if_pos ⟨h0r, h0m, he1, he2, he3⟩, if_pos ⟨ha3, ha2⟩]
  exact List.mem_singleton.2 rfl

theorem kingDirs_small : ∀ dd ∈ kingDirs, dd.1.natAbs ≤ 1 ∧ dd.2.natAbs ≤ 1 := by
  decide

/-- Claim C6 (amended): for a board of the standard shape holding the moving
king on its stored square at file 4, the unique king of its color, the
kingside destination (row, 6) is offered by get_valid_moves if and only if
the king has never moved, it is not in check, the corner square (row, 7)
holds a never-moved rook (of either color: the code does not test the rook
color), files 5 and 6 of the rank are empty and squares (row, 5) and
(row, 6) are unattacked; and symmetrically the queenside destination
(row, 2) is offered iff the corner (row, 0) holds a never-moved rook,
files 1, 2, 3 are empty and squares (row, 3) and (row, 2) are unattacked.
No separate would-be-in-check condition is needed: under these conditions
the simulated king relocation cannot be in check. -/
theorem castling_offer_iff (b : Board) (ep : Option (Int × Int)) (p : Piece) (row : Int)
    (hsh : Shaped b) (hp : bget b row 4 = some p) (hrow : p.row = row) (hcol : p.col = 4)
    (hk : p.piece_type = PieceType.king)
    (huniq : ∀ r c q, bget b r c = some q → q.color = p.color →
      q.piece_type = PieceType.king → r = row ∧ c = 4) :
    ((row, 6) ∈ get_valid_moves b ep p ↔
      (¬p.has_moved ∧ is_in_check b p.color = false ∧
        (∃ r7, bget b row 7 = some r7 ∧ r7.piece_type = PieceType.rook ∧
          r7.has_moved = false) ∧
        bget b row 5 = none ∧ bget b row 6 = none ∧
        is_square_attacked b row 5 p.color = false ∧
        is_square_attacked b row 6 p.color = false)) ∧
    ((row, 2) ∈ get_valid_moves b ep p ↔
      (¬p.has_moved ∧ is_in_check b p.color = false ∧
        (∃ r0, bget b row 0 = some r0 ∧ r0.piece_type = PieceType.rook ∧
          r0.has_moved = false) ∧
        bget b row 1 = none ∧ bget b row 2 = none ∧ bget b row 3 = none ∧
        is_square_attacked b row 3 p.color = false ∧
        is_square_attacked b row 2 p.color = false)) := by
  have hstep : ∀ tc : Int, (tc - 4).natAbs ≥ 2 → ∀ hs : (row, tc) ∈ stepMoves b p kingDirs, False := by
    intro tc htc hs
    obtain ⟨dd, hdd, heq, -, -⟩ := stepMoves_mem b p kingDirs _ hs
    have hd2 : dd.2.natAbs ≤ 1 := (kingDirs_small dd hdd).2
    rw [Prod.mk.injEq] at heq
    obtain ⟨-, h2⟩ := heq
    rw [hcol] at h2
    omega
  constructor
  · constructor
    · intro h
      obtain ⟨hmem, -⟩ := List.mem_filter.1 h
      simp only [pseudoMoves, hk] at hmem
      rcases List.mem_append.1 hmem with hs | hc
      · exact absurd hs (fun hs => hstep 6 (by omega) hs)
      · rcases castleMoves_mem b p _ hc with hmain | hq
        · rw [hrow] at hmain
          exact hmain.2
        · have h62 := hq.1
          rw [Prod.mk.injEq] at h62
          exact absurd h62.2 (by omega)
    · rintro ⟨hm, hnc, ⟨r7, h7, h7r, h7m⟩, he5, he6, ha5, ha6⟩
      apply List.mem_filter.2
      refine ⟨?_, ?_⟩
      · rw [← hrow] at h7 he5 he6 ha5 ha6 ⊢
        simp only [pseudoMoves, hk]
        exact List.mem_append_right _
          (castleMoves_intro_k b p r7 hm hnc h7 h7r h7m he5 he6 ha5 ha6)
      · exact decide_eq_true
          (wbic_castle_false b p row 6 hsh hp hrow hcol hk huniq (Or.inl rfl) hnc ha6)
  · constructor
    · intro h
      obtain ⟨hmem, -⟩ := List.mem_filter.1 h
      simp only [pseudoMoves, hk] at hmem
      rcases List.mem_append.1 hmem with hs | hc
      · exact absurd hs (fun hs => hstep 2 (by omega) hs)
      · rcases castleMoves_mem b p _ hc with hmain | hq
        · have h26 := hmain.1
          rw [Prod.mk.injEq] at h26
          exact absurd h26.2 (by omega)
        · rw [hrow] at hq
          exact hq.2
    · rintro ⟨hm, hnc, ⟨r0, h0, h0r, h0m⟩, he1, he2, he3, ha3, ha2⟩
      apply List.mem_filter.2
      refine ⟨?_, ?_⟩
      · rw [← hrow] at h0 he1 he2 he3 ha3 ha2 ⊢
        simp only [pseudoMoves, hk]
        exact List.mem_append_right _
          (castleMoves_intro_q b p r0 hm hnc h0 h0r h0m he1 he2 he3 ha3 ha2)
      · exact decide_eq_true
          (wbic_castle_false b p row 2 hsh hp hrow hcol hk huniq (Or.inr rfl) hnc ha2)

theorem king_unique_of_all (b : Board) (col : Color) (row fc : Int)
    (h : (allSquares.all fun sq =>
        match bget b sq.1 sq.2 with
        | some q =>
          if q.color = col ∧ q.piece_type = PieceType.king then
            decide (sq.1 = row ∧ sq.2 = fc)
          else true
        | none => true) = true) :
    ∀ r c q, bget b r c = some q → q.color = col →
      q.piece_type = PieceType.king → r = row ∧ c = fc := by
  intro r c q hq hqc hqk
  have hin : inBP r c := bget_some_inBP hq
  have hmem : (r, c) ∈ allSquares := mem_allSquares.2 hin
  have h1 := List.all_eq_true.1 h (r, c) hmem
  have h2 : (match bget b r c with
      | some q =>
        if q.color = col ∧ q.piece_type = PieceType.king then
          decide (r = row ∧ c = fc)
        else true
      | none => true) = true := h1
  rw [hq] at h2
  have h3 : (if q.color = col ∧ q.piece_type = PieceType.king then
      decide (r = row ∧ c = fc) else true) = true := h2
  rw [if_pos ⟨hqc, hqk⟩] at h3
  exact of_decide_eq_true h3

def c6WK : Piece := ⟨Color.white, PieceType.king, 7, 4, false⟩

def c6WR : Piece := ⟨Color.white, PieceType.rook, 7, 7, false⟩

def c6BK : Piece := ⟨Color.black, PieceType.king, 0, 0, false⟩

def c6WB : Board :=
  bset (bset (bset (List.replicate 8 emptyRank) 7 4 (some c6WK)) 7 7 (some c6WR))
    0 0 (some c6BK)

/-- Claim C6 witness: lone white king on e1 and rook on h1, black king on
a8: kingside castling is offered, queenside is not (empty corner). -/
theorem castling_offer_iff_witness :
    (7, 6) ∈ get_valid_moves c6WB none c6WK ∧ (7, 2) ∉ get_valid_moves c6WB none c6WK := by
  have h := castling_offer_iff c6WB none c6WK 7 ⟨rfl, by decide⟩ (by decide) rfl rfl rfl
    (king_unique_of_all c6WB Color.white 7 4 (by decide))
  refine ⟨?_, ?_⟩
  · exact h.1.2 ⟨by decide, by decide, ⟨c6WR, by decide, rfl, rfl⟩,
      by decide, by decide, by decide, by decide⟩
  · intro hc
    obtain ⟨-, -, ⟨r0, h0, -⟩, -⟩ := h.2.1 hc
    have h0n : bget c6WB 7 0 = none := by decide
    rw [h0n] at h0
    cases h0

/-! ### Claim C2 (amended): remote application mirrors local execution -/

def exState : Except Unit GState → Option GState
  | .ok g => some g
  | .error _ => none

def payloadOf (sp : Piece) (tr tc : Int) (ep : Option (Int × Int)) : Payload :=
  ⟨(sp.row, sp.col), (tr, tc),
   decide (sp.piece_type = PieceType.king ∧ (tc - sp.col).natAbs = 2),
   decide (sp.piece_type = PieceType.pawn ∧ ep = some (tr, tc))⟩

theorem except_bind_ok {α β : Type _} (a : α) (f : α → Except Unit β) :
    (Except.ok a : Except Unit α).bind f = f a := rfl

theorem pyIdx_ok (i : Int) (h0 : 0 ≤ i) (h1 : i < 8) : pyIdx i = .ok i := by
  rw [pyIdx, if_pos ⟨h0, h1⟩]

theorem pyIdx4_ok (md : Payload) (h : inBP md.fromSq.1 md.fromSq.2)
    (h' : inBP md.toSq.1 md.toSq.2) :
    pyIdx4 md = .ok (md.fromSq.1, md.fromSq.2, md.toSq.1, md.toSq.2) := by
  obtain ⟨a1, a2, a3, a4⟩ := h
  obtain ⟨b1, b2, b3, b4⟩ := h'
  rw [pyIdx4, pyIdx_ok _ a1 a2, pyIdx_ok _ a3 a4, pyIdx_ok _ b1 b2, pyIdx_ok _ b3 b4]

theorem pawnMovesD_facts (b : Board) (ep : Option (Int × Int)) (p : Piece) (d : Int)
    (hp : bget b p.row p.col = some p) (hd0 : d ≠ 0) :
    ∀ t ∈ pawnMovesD b ep p d, inBP t.1 t.2 ∧ t.1 ≠ p.row := by
  intro t ht
  obtain ⟨hr0, hr1, hc0, hc1⟩ := bget_some_inBP hp
  simp only [pawnMovesD] at ht
  have hdiag : ∀ dc : Int,
      t ∈ (if 0 ≤ p.row + d ∧ p.row + d < 8 ∧ 0 ≤ p.col + dc ∧ p.col + dc < 8 then
        match bget b (p.row + d) (p.col + dc) with
        | some t2 => if t2.color ≠ p.color then [(p.row + d, p.col + dc)]
            else if ep = some (p.row + d, p.col + dc) then [(p.row + d, p.col + dc)] else []
        | none =>
          if ep = some (p.row + d, p.col + dc) then [(p.row + d, p.col + dc)] else []
      else []) → inBP t.1 t.2 ∧ t.1 ≠ p.row := by
    intro dc hdm
    by_cases hD : 0 ≤ p.row + d ∧ p.row + d < 8 ∧ 0 ≤ p.col + dc ∧ p.col + dc < 8
    · rw [if_pos hD] at hdm
      have hall : ∀ l : List (Int × Int), l = [] ∨ l = [(p.row + d, p.col + dc)] →
          t ∈ l → inBP t.1 t.2 ∧ t.1 ≠ p.row := by
        rintro l (rfl | rfl) htl
        · simp at htl
        · rcases List.mem_singleton.1 htl with rfl
          exact ⟨hD, by dsimp only; omega⟩
      cases hg : bget b (p.row + d) (p.col + dc) with
      | some t2 =>
        rw [hg] at hdm
        refine hall _ ?_ hdm
        dsimp only
        split
        · right; rfl
        · split
          · right; rfl
          · left; rfl
      | none =>
        rw [hg] at hdm
        refine hall _ ?_ hdm
        dsimp only
        split
        · right; rfl
        · left; rfl
    · rw [if_neg hD] at hdm
      simp at hdm
  rcases List.mem_append.1 ht with h | h
  · rcases List.mem_append.1 h with h | h
    · by_cases hF : 0 ≤ p.row + d ∧ p.row + d < 8 ∧ bget b (p.row + d) p.col = none
      · rw [if_pos hF] at h
        rcases List.mem_cons.1 h with rfl | h2
        · exact ⟨⟨by omega, by omega, hc0, hc1⟩, by dsimp only; omega⟩
        · by_cases hF2 : ¬p.has_moved ∧ 0 ≤ p.row + 2*d ∧ p.row + 2*d < 8 ∧
              bget b (p.row + 2*d) p.col = none
          · rw [if_pos hF2] at h2
            rcases List.mem_singleton.1 h2 with rfl
            exact ⟨⟨by omega, by omega, hc0, hc1⟩, by dsimp only; omega⟩
          · rw [if_neg hF2] at h2
            simp at h2
      · rw [if_neg hF] at h
        simp at h
    · exact hdiag (-1) h
  · exact hdiag 1 h

theorem pseudoMoves_bounds (b : Board) (ep : Option (Int × Int)) (p : Piece)
    (hp : bget b p.row p.col = some p) :
    ∀ m ∈ pseudoMoves b ep p, inBP m.1 m.2 := by
  intro m hm
  obtain ⟨hr0, hr1, hc0, hc1⟩ := bget_some_inBP hp
  cases hk : p.piece_type <;> simp only [pseudoMoves, hk] at hm
  case pawn =>
    have hd0 : (if p.color = Color.white then (-1 : Int) else 1) ≠ 0 := by split <;> omega
    exact (pawnMovesD_facts b ep p _ hp hd0 m hm).1
  case rook =>
    rcases List.mem_flatMap.1 hm with ⟨dd, _, hray⟩
    exact (moveRay_mem b p.color 7 p.row p.col dd.1 dd.2 m hray).1
  case knight =>
    obtain ⟨dd, _, _, hin, _⟩ := stepMoves_mem b p knightDirs m hm
    exact hin
  case bishop =>
    rcases List.mem_flatMap.1 hm with ⟨dd, _, hray⟩
    exact (moveRay_mem b p.color 7 p.row p.col dd.1 dd.2 m hray).1
  case queen =>
    rcases List.mem_flatMap.1 hm with ⟨dd, _, hray⟩
    exact (moveRay_mem b p.color 7 p.row p.col dd.1 dd.2 m hray).1
  case king =>
    rcases List.mem_append.1 hm with h | h
    · obtain ⟨dd, _, _, hin, _⟩ := stepMoves_mem b p kingDirs m h
      exact hin
    · rcases castleMoves_mem b p m h with ⟨rfl, _⟩ | ⟨rfl, _⟩
      · exact ⟨hr0, hr1, by omega, by omega⟩
      · exact ⟨hr0, hr1, by omega, by omega⟩

/-- Claim C2 as amended: for every state whose selected piece is stored
consistently and whose valid_moves list is the one select_piece computes,
and for every offered destination that is not a pawn promotion, move_piece
succeeds, apply_remote_move with the payload derived from the MoveRecord
(its from/to/castling/en_passant fields, certified by the last conjunct)
also succeeds, both produce the same board and the same side to move, and
apply_remote_move leaves en_passant_target unchanged. -/
theorem remote_matches_local (g : GState) (sp : Piece) (tr tc : Int)
    (hs : g.selected_piece = some sp)
    (hp : bget g.board sp.row sp.col = some sp)
    (hv : g.valid_moves = get_valid_moves g.board g.en_passant_target sp)
    (hm : (tr, tc) ∈ g.valid_moves)
    (hnp : ¬(sp.piece_type = PieceType.pawn ∧
      ((sp.color = Color.white ∧ tr = 0) ∨ (sp.color = Color.black ∧ tr = 7)))) :
    mpOk (move_piece g tr tc) = true ∧
    exceptOk (apply_remote_move g (payloadOf sp tr tc g.en_passant_target)) = true ∧
    (mpState (move_piece g tr tc)).map (fun g2 => g2.board) =
      (exState (apply_remote_move g (payloadOf sp tr tc g.en_passant_target))).map
        (fun g2 => g2.board) ∧
    (mpState (move_piece g tr tc)).map (fun g2 => g2.current_player) =
      (exState (apply_remote_move g (payloadOf sp tr tc g.en_passant_target))).map
        (fun g2 => g2.current_player) ∧
    (exState (apply_remote_move g (payloadOf sp tr tc g.en_passant_target))).map
      (fun g2 => g2.en_passant_target) = some g.en_passant_target ∧
    (mpState (move_piece g tr tc)).map (fun g2 =>
        g2.move_history.getLast?.map fun r => (r.fromSq, r.toSq, r.castling, r.en_passant)) =
      some (some ((sp.row, sp.col), (tr, tc),
        (payloadOf sp tr tc g.en_passant_target).castling,
        (payloadOf sp tr tc g.en_passant_target).en_passant)) := by
  have hm' : (tr, tc) ∈ pseudoMoves g.board g.en_passant_target sp := by
    rw [hv] at hm
    exact List.mem_of_mem_filter hm
  rw [hv] at hm
  have hm0 : (tr, tc) ∈ g.valid_moves := by rw [hv]; exact hm
  have hin : inBP tr tc := by
    simpa using pseudoMoves_bounds _ _ _ hp (tr, tc) hm'
  have hpin : inBP sp.row sp.col := bget_some_inBP hp
  -- reduce the local application
  simp only [move_piece, hs, if_pos hm0]
  -- reduce the remote application
  simp only [apply_remote_move]
  rw [pyIdx4_ok _ hpin hin]
  simp only [payloadOf, except_bind_ok]
  rw [hp]
  simp only [reqSome, except_bind_ok]
  by_cases hepC : sp.piece_type = PieceType.pawn ∧ g.en_passant_target = some (tr, tc)
  · -- en-passant capture
    have hk : sp.piece_type = PieceType.pawn := hepC.1
    have hcsC : ¬(sp.piece_type = PieceType.king ∧ (tc - sp.col).natAbs = 2) := by
      rw [hk]
      rintro ⟨h, _⟩
      cases h
    have hd0 : (if sp.color = Color.white then (-1 : Int) else 1) ≠ 0 := by split <;> omega
    have hmp : (tr, tc) ∈ pawnMovesD g.board g.en_passant_target sp
        (if sp.color = Color.white then -1 else 1) := by
      simpa only [pseudoMoves, hk, pawnMoves] using hm'
    have htr : tr ≠ sp.row := by
      simpa using (pawnMovesD_facts _ _ _ _ hp hd0 (tr, tc) hmp).2
    simp only [if_pos hepC, if_neg hcsC, if_neg hnp, decide_eq_false hcsC,
      decide_eq_true hepC.2.symm ▸ decide_eq_true hepC, Bool.false_eq_true, if_false,
      except_map_ok, mpOk, mpState, exState, exceptOk, Option.map_some', Option.some.injEq,
      List.getLast?_concat, and_self, and_true, true_and, if_true]
    have hdec : decide (some (tr, tc) = g.en_passant_target) = true := by
      rw [hepC.2]
      simp
    simp only [hdec, eq_self_iff_true, if_true, and_true]
    by_cases htc : tc = sp.col
    · rw [htc, bset_bset_same]
      rw [bset_comm _ tr sp.col sp.row sp.col _ _ (fun hx => htr hx.1)]
      rw [bset_bset_same]
    · rw [bset_comm _ tr tc sp.row tc _ _ (fun hx => htr hx.1)]
      rw [bset_comm _ sp.row sp.col sp.row tc _ _ (fun hx => htc hx.2.symm)]
  · by_cases hcsC : sp.piece_type = PieceType.king ∧ (tc - sp.col).natAbs = 2
    · -- castling
      have hkk : sp.piece_type = PieceType.king := hcsC.1
      have hmk : (tr, tc) ∈ stepMoves g.board sp kingDirs ++ castleMoves g.board sp := by
        simpa only [pseudoMoves, hkk] using hm'
      rcases List.mem_append.1 hmk with hstep | hcast
      · obtain ⟨dd, hdd, he, _, _⟩ := stepMoves_mem _ _ _ _ hstep
        have hd2 : dd.2.natAbs ≤ 1 := by
          have hall : ∀ d ∈ kingDirs, d.2.natAbs ≤ 1 := by decide
          exact hall dd hdd
        have he2 : tc = sp.col + dd.2 := by
          have := congrArg Prod.snd he
          simpa using this
        have h2 := hcsC.2
        omega
      · rcases castleMoves_mem _ _ _ hcast with
          ⟨heq, hnm, hnc, ⟨r7, hr7, hr7t, hr7m⟩, h5e, h6e, ha5, ha6⟩ |
          ⟨heq, hnm, hnc, ⟨r0, hr0, hr0t, hr0m⟩, h1e, h2e, h3e, ha3, ha2⟩
        · -- kingside
          rw [Prod.ext_iff] at heq
          obtain ⟨htr, htc⟩ := heq
          dsimp only at htr htc
          subst htr
          subst htc
          have hc4 : sp.col = 4 := by
            obtain ⟨_, _, hcc0, hcc1⟩ := hpin
            have h2 := hcsC.2
            omega
          rw [hc4] at hcsC hp ⊢
          have hgt : (4 : Int) < 6 := by norm_num
          simp only [if_neg hepC, if_pos hcsC, if_pos hgt, decide_eq_false hepC,
            decide_eq_true hcsC, Bool.false_eq_true, if_false, if_true, eq_self_iff_true]
          rw [hr7]
          rw [bget_bset_ne _ sp.row 6 sp.row 7 _ (fun hx => absurd hx.2 (by norm_num))]
          rw [bget_bset_ne _ sp.row 4 sp.row 7 _ (fun hx => absurd hx.2 (by norm_num))]
          rw [hr7]
          rw [show ((6 : Int) - 1) = 5 from by norm_num]
          simp only [if_neg hnp, reqSome, except_map_ok, mpOk, mpState, exState, exceptOk,
            Option.map_some', Option.some.injEq, List.getLast?_concat, and_self, and_true,
            true_and]
          rw [bset_comm (bset g.board sp.row 4 none) sp.row 6 sp.row 7 _ none
            (fun hx => absurd hx.2 (by norm_num))]
          rw [bset_comm g.board sp.row 4 sp.row 7 none none
            (fun hx => absurd hx.2 (by norm_num))]
          rw [bset_comm (bset (bset g.board sp.row 7 none) sp.row 4 none) sp.row 6 sp.row 5 _ _
            (fun hx => absurd hx.2 (by norm_num))]
          rw [bset_comm (bset g.board sp.row 7 none) sp.row 4 sp.row 5 none _
            (fun hx => absurd hx.2 (by norm_num))]
        · -- queenside
          rw [Prod.ext_iff] at heq
          obtain ⟨htr, htc⟩ := heq
          dsimp only at htr htc
          subst htr
          subst htc
          have hc4 : sp.col = 4 := by
            obtain ⟨_, _, hcc0, hcc1⟩ := hpin
            have h2 := hcsC.2
            have hkk2 := hkk
            rcases (by omega : sp.col = 0 ∨ sp.col = 4) with h0 | h4
            · rw [h0] at hp
              rw [hp] at hr0
              injection hr0 with hsr
              rw [← hsr] at hr0t
              rw [hkk2] at hr0t
              simp at hr0t
            · exact h4
          rw [hc4] at hcsC hp ⊢
          have hlt : ¬((4 : Int) < 2) := by norm_num
          simp only [if_neg hepC, if_pos hcsC, if_neg hlt, decide_eq_false hepC,
            decide_eq_true hcsC, Bool.false_eq_true, if_false, if_true, eq_self_iff_true]
          rw [hr0]
          rw [bget_bset_ne _ sp.row 2 sp.row 0 _ (fun hx => absurd hx.2 (by norm_num))]
          rw [bget_bset_ne _ sp.row 4 sp.row 0 _ (fun hx => absurd hx.2 (by norm_num))]
          rw [hr0]
          rw [show ((2 : Int) + 1) = 3 from by norm_num]
          simp only [if_neg hnp, reqSome, except_map_ok, mpOk, mpState, exState, exceptOk,
            Option.map_some', Option.some.injEq, List.getLast?_concat, and_self, and_true,
            true_and]
          rw [bset_comm (bset g.board sp.row 4 none) sp.row 2 sp.row 0 _ none
            (fun hx => absurd hx.2 (by norm_num))]
          rw [bset_comm g.board sp.row 4 sp.row 0 none none
            (fun hx => absurd hx.2 (by norm_num))]
          rw [bset_comm (bset (bset g.board sp.row 0 none) sp.row 4 none) sp.row 2 sp.row 3 _ _
            (fun hx => absurd hx.2 (by norm_num))]
          rw [bset_comm (bset g.board sp.row 0 none) sp.row 4 sp.row 3 none _
            (fun hx => absurd hx.2 (by norm_num))]
    · -- plain move
      simp only [if_neg hepC, if_neg hcsC, if_neg hnp, decide_eq_false hcsC,
        decide_eq_false hepC, Bool.false_eq_true, if_false, except_map_ok,
        mpOk, mpState, exState, exceptOk, Option.map_some', Option.some.injEq,
        List.getLast?_concat, and_self, and_true, true_and]

def c2Pawn : Piece := ⟨.white, .pawn, 6, 4, false⟩

def c2G : GState := (select_piece initGState 6 4).2

/-- Claim C2 witness: the local double push e2-e4 against its remote replay. -/
theorem remote_matches_local_witness :
    mpOk (move_piece c2G 4 4) = true ∧
    exceptOk (apply_remote_move c2G (payloadOf c2Pawn 4 4 c2G.en_passant_target)) = true ∧
    (mpState (move_piece c2G 4 4)).map (fun g2 => g2.board) =
      (exState (apply_remote_move c2G (payloadOf c2Pawn 4 4 c2G.en_passant_target))).map
        (fun g2 => g2.board) ∧
    (mpState (move_piece c2G 4 4)).map (fun g2 => g2.current_player) =
      (exState (apply_remote_move c2G (payloadOf c2Pawn 4 4 c2G.en_passant_target))).map
        (fun g2 => g2.current_player) ∧
    (exState (apply_remote_move c2G (payloadOf c2Pawn 4 4 c2G.en_passant_target))).map
      (fun g2 => g2.en_passant_target) = some c2G.en_passant_target ∧
    (mpState (move_piece c2G 4 4)).map (fun g2 =>
        g2.move_history.getLast?.map fun r => (r.fromSq, r.toSq, r.castling, r.en_passant)) =
      some (some ((c2Pawn.row, c2Pawn.col), ((4 : Int), (4 : Int)),
        (payloadOf c2Pawn 4 4 c2G.en_passant_target).castling,
        (payloadOf c2Pawn 4 4 c2G.en_passant_target).en_passant)) :=
  remote_matches_local c2G c2Pawn 4 4 rfl (by decide) rfl (by decide) (by decide)

end Chess
